import Mathlib

/-!
# Verification of the Confluence analytics pipeline

A shallow embedding of `confluence-analytics-pipeline.py` in Lean 4, together
with proofs settling the frozen claims about its specification.

The embedding conventions:
* Python dictionaries coming from JSON responses become structures whose
  fields are `Option`-valued when the corresponding key may be absent.
* A raw subscript `d["k"]` (which raises `KeyError` when the key is absent)
  becomes a monadic bind on the `Option` field; `d.get("k", default)` becomes
  `Option.getD`.
* A Python function that may raise becomes a Lean function into `Option`
  (`none` = an exception escaped).
* The filesystem touched by the persistence step becomes an explicit `FS`
  state: association lists from file names to file contents for the active
  output folder and for the archive folder.
-/

namespace ConfluencePipeline

/-! ## Configuration constants (source lines 22-35) -/

def BASE_URL : String := "https://confluence.company.com"

def OUTPUT_FOLDER : String := "confluence_data"

def KEEP_HISTORY : Bool := true

def ARCHIVE_OLD_SNAPSHOTS : Bool := true

def MAX_SNAPSHOTS_TO_KEEP : Nat := 12

def OWNER_PARAM_ID : String := "your_owner_param_id"

def RELEVANCE_PARAM_ID : String := "your_relevance_param_id"

/-! ## Data model: raw items and workflow documents

Shapes of the JSON documents consumed by `extract_required_data`
(source lines 235-338).  Every key that the code reads is a field;
a key whose absence the code tolerates (read via `.get` or guarded by an
`in` test) is `Option`-valued and the reading code uses `Option.getD`,
while a key read by raw subscript is also `Option`-valued but the reading
code binds it monadically, so its absence makes the whole extraction
return `none` (a raised `KeyError`). -/

/-- A user object (`createdBy` / `version.by`): `displayName` and `username`
are both read with `.get`, so both are optional. -/
structure UserObj where
  displayName : Option String
  username : Option String
deriving Repr, DecidableEq

/-- `page["history"]`: `createdDate` is read by raw subscript (line 243),
`createdBy` is guarded by an `in` test (line 248). -/
structure HistoryObj where
  createdDate : Option String
  createdBy : Option UserObj
deriving Repr, DecidableEq

/-- `page["version"]`: the `when` key is read by raw subscript (line 244);
`by` and `number` are read with guards / `.get` (lines 177-182). -/
structure VersionObj where
  whenDate : Option String
  byUser : Option UserObj
  number : Option Nat
deriving Repr, DecidableEq

/-- One entry of `metadata.labels.results`: `name` read with `.get` (line 259). -/
structure LabelObj where
  name : Option String
deriving Repr, DecidableEq

/-- `page["metadata"]["labels"]`: `results` read with `.get` (line 258). -/
structure LabelsObj where
  results : Option (List LabelObj)
deriving Repr, DecidableEq

/-- `page["metadata"]`: `labels` guarded by an `in` test (line 257). -/
structure MetadataObj where
  labels : Option LabelsObj
deriving Repr, DecidableEq

/-- One raw content item as consumed by `extract_required_data`.
`title`, `id`, `space_key`, `history` and `version` are read by raw
subscript (lines 237, 240, 243, 244, 279); `ancestors` and `metadata` are
read with `.get` / `in` guards (lines 253, 257). -/
structure Page where
  id : Option String
  title : Option String
  space_key : Option String
  history : Option HistoryObj
  version : Option VersionObj
  ancestors : Option (List Unit)
  metadata : Option MetadataObj
deriving Repr, DecidableEq

/-- One workflow parameter entry: `id` is read by raw subscript
(lines 315, 317, 325, 327, 333, 335) and so raises when absent; `value` is
read with `.get("value", "")` and so defaults to `""`. -/
structure WfParam where
  id : Option String
  value : Option String
deriving Repr, DecidableEq

/-- The value of a parameter entry: `param.get("value", "")`. -/
def paramValue (p : WfParam) : String := p.value.getD ""

/-- One transition object: `parameters` is guarded by an `in` test
(lines 323, 331). -/
structure Transition where
  parameters : Option (List WfParam)
deriving Repr, DecidableEq

/-- The `transitions` dictionary of the workflow state: the code consults
only the `submit` and `select` keys, both guarded by `in` tests
(lines 323, 329). -/
structure TransitionsObj where
  submit : Option Transition
  select : Option (List Transition)
deriving Repr, DecidableEq

/-- The workflow `state` object: `transitions` read with `.get(..., {})`
(line 322). -/
structure WfStateObj where
  transitions : Option TransitionsObj
deriving Repr, DecidableEq

/-- The Comala status document: `workflowName` and `state` are read with
`.get` (lines 311, 322). -/
structure WorkflowData where
  workflowName : Option String
  state : Option WfStateObj
deriving Repr, DecidableEq

/-- The Comala parameters document: the code only tests for and reads the
`workflowParameters` key (lines 313-314). -/
structure ParametersData where
  workflowParameters : Option (List WfParam)
deriving Repr, DecidableEq

/-- The content-statistics bundle built by `get_page_content_info`
(lines 144-150); all fields are always present in the dictionaries the
code itself constructs. -/
structure ContentInfo where
  word_count : Nat
  char_count : Nat
  attachment_count : Nat
  image_count : Nat
  table_count : Nat
deriving Repr, DecidableEq

/-- The user-activity bundle built by `get_simplified_user_activity`
(lines 184-188). -/
structure UserActivity where
  unique_contributors : Nat
  edit_count : Nat
  last_editor : String
deriving Repr, DecidableEq

/-- The default content statistics substituted when `content_info` is
`None` (lines 262-269). -/
def defaultContentInfo : ContentInfo :=
  { word_count := 0, char_count := 0, attachment_count := 0
    image_count := 0, table_count := 0 }

/-- The default user activity substituted when `user_activity` is `None`
(lines 271-276). -/
def defaultUserActivity : UserActivity :=
  { unique_contributors := 0, edit_count := 0, last_editor := "" }

/-- One persisted row, with the fixed field set of `get_fieldnames`
(lines 340-368) in source order. -/
structure CanonicalRecord where
  space_key : String
  page_title : String
  page_url : String
  page_created : String
  date_modified : String
  creator_name : String
  page_depth : Nat
  child_pages : Nat
  workflow_name : String
  owner_value : String
  project_relevance : String
  labels : String
  word_count : Nat
  char_count : Nat
  attachment_count : Nat
  image_count : Nat
  table_count : Nat
  unique_contributors : Nat
  edit_count : Nat
  last_editor : String
  extraction_date : String
  extraction_time : String
deriving Repr, DecidableEq

/-! ## Timestamp conversion (source lines 243-244) -/

/-- Models `datetime.fromisoformat(s.replace("Z", "+00:00")).strftime("%Y-%m-%d")`:
on a string whose first ten characters form a well-formed calendar date
`YYYY-MM-DD` the conversion succeeds and returns exactly that date part
(`fromisoformat` parses the timestamp in its own offset and `strftime`
prints its calendar date, which is the date part of the original string;
the `replace` of `"Z"` by `"+00:00"` never alters those ten characters).
On a string without such a prefix `fromisoformat` raises `ValueError`,
modelled as `none`.  Validation of the remainder of the timestamp is not
modelled: no claim distinguishes a malformed tail. -/
def pyIsoToDate (s : String) : Option String :=
  match s.data with
  | y1 :: y2 :: y3 :: y4 :: '-' :: m1 :: m2 :: '-' :: d1 :: d2 :: _ =>
    if y1.isDigit && y2.isDigit && y3.isDigit && y4.isDigit &&
        m1.isDigit && m2.isDigit && d1.isDigit && d2.isDigit then
      some (String.mk [y1, y2, y3, y4, '-', m1, m2, '-', d1, d2])
    else none
  | _ => none

/-! ## Workflow parameter scans (source lines 313-336) -/

/-- The loop over a parameter list at lines 314-318 and 324-328: each
matching entry overwrites the accumulator unconditionally; `param["id"]`
raises (`none`) when the `id` key is absent. -/
def scanParamsOverwrite : List WfParam → String → String → Option (String × String)
  | [], owner, relevance => some (owner, relevance)
  | p :: rest, owner, relevance =>
    match p.id with
    | none => none
    | some pid =>
      if pid = OWNER_PARAM_ID then
        scanParamsOverwrite rest (paramValue p) relevance
      else if pid = RELEVANCE_PARAM_ID then
        scanParamsOverwrite rest owner (paramValue p)
      else
        scanParamsOverwrite rest owner relevance

/-- The loop over one `select` transition's parameter list at lines
332-336: a matching entry is taken only when the corresponding
accumulator is still empty (Python truthiness of the accumulated string). -/
def scanParamsGuarded : List WfParam → String → String → Option (String × String)
  | [], owner, relevance => some (owner, relevance)
  | p :: rest, owner, relevance =>
    match p.id with
    | none => none
    | some pid =>
      if pid = OWNER_PARAM_ID ∧ owner = "" then
        scanParamsGuarded rest (paramValue p) relevance
      else if pid = RELEVANCE_PARAM_ID ∧ relevance = "" then
        scanParamsGuarded rest owner (paramValue p)
      else
        scanParamsGuarded rest owner relevance

/-- The loop over the `select` transition list at lines 330-336: entries
without a `parameters` key are skipped. -/
def scanSelectTransitions : List Transition → String → String → Option (String × String)
  | [], owner, relevance => some (owner, relevance)
  | t :: rest, owner, relevance =>
    match t.parameters with
    | none => scanSelectTransitions rest owner relevance
    | some ps =>
      match scanParamsGuarded ps owner relevance with
      | none => none
      | some (o, r) => scanSelectTransitions rest o r

/-- `workflow_data.get("state", {}).get("transitions", {})` (line 322). -/
def wfTransitions (wd : WorkflowData) : TransitionsObj :=
  match wd.state with
  | none => { submit := none, select := none }
  | some st => st.transitions.getD { submit := none, select := none }

/-- The transition-based fallback (lines 321-336): scan the `submit`
transition's parameter list (overwriting scan starting from the empty
accumulators the result dictionary holds at that point), then — only when
the owner value is still empty — scan the `select` transition list with
the guarded scan. -/
def transitionFallback (wd : WorkflowData) : Option (String × String) := do
  let t := wfTransitions wd
  let (o, r) ←
    match t.submit with
    | some tr =>
      match tr.parameters with
      | some ps => scanParamsOverwrite ps "" ""
      | none => pure ("", "")
    | none => pure ("", "")
  if o = "" then
    match t.select with
    | some trs => scanSelectTransitions trs o r
    | none => pure (o, r)
  else
    pure (o, r)

/-- The owner/relevance extraction for a page whose workflow status was
obtained (lines 313-336).  The Python guard
`if parameters_data and "workflowParameters" in parameters_data` holds
exactly when a parameters document was obtained and it carries the
`workflowParameters` key (a document without any key is falsy in Python
and also fails the key test, so the two translations agree); in that case
the flat list is scanned and the function returns without consulting the
transitions. -/
def workflowParamValues (wd : WorkflowData) (parameters_data : Option ParametersData) :
    Option (String × String) :=
  match parameters_data with
  | some pd =>
    match pd.workflowParameters with
    | some ps => scanParamsOverwrite ps "" ""
    | none => transitionFallback wd
  | none => transitionFallback wd

/-! ## `extract_required_data` (source lines 235-338) -/

/-- The normalization step.  `nowDate` and `nowTime` stand for the two
`datetime.now().strftime(...)` stamps of lines 302-303, passed explicitly.
`none` models an uncaught exception (`KeyError` from a raw subscript on a
missing key, or `ValueError` from `fromisoformat`).  The Python guard
`if not workflow_data` treats both `None` and an empty status document as
absent; an empty document is modelled by `none` as well (an all-`none`
`WorkflowData` would produce the identical record, since every field it
contributes defaults to `""`). -/
def extract_required_data (page : Page) (workflow_data : Option WorkflowData)
    (parameters_data : Option ParametersData) (child_count : Nat)
    (content_info : Option ContentInfo) (user_activity : Option UserActivity)
    (nowDate nowTime : String) : Option CanonicalRecord := do
  let page_title ← page.title
  let pid ← page.id
  let page_url := BASE_URL ++ "/pages/viewpage.action?pageId=" ++ pid
  let hist ← page.history
  let createdRaw ← hist.createdDate
  let created_date ← pyIsoToDate createdRaw
  let ver ← page.version
  let whenRaw ← ver.whenDate
  let modified_date ← pyIsoToDate whenRaw
  let creator_name :=
    match page.history with
    | some h =>
      match h.createdBy with
      | some u => u.displayName.getD (u.username.getD "")
      | none => ""
    | none => ""
  let page_depth := (page.ancestors.getD []).length
  let labelList :=
    match page.metadata with
    | some m =>
      match m.labels with
      | some lo => lo.results.getD []
      | none => []
    | none => []
  let all_labels := String.intercalate ", " (labelList.map (fun l => l.name.getD ""))
  let ci := content_info.getD defaultContentInfo
  let ua := user_activity.getD defaultUserActivity
  let sk ← page.space_key
  let result : CanonicalRecord :=
    { space_key := sk
      page_title := page_title
      page_url := page_url
      page_created := created_date
      date_modified := modified_date
      creator_name := creator_name
      page_depth := page_depth
      child_pages := child_count
      workflow_name := ""
      owner_value := ""
      project_relevance := ""
      labels := all_labels
      word_count := ci.word_count
      char_count := ci.char_count
      attachment_count := ci.attachment_count
      image_count := ci.image_count
      table_count := ci.table_count
      unique_contributors := ua.unique_contributors
      edit_count := ua.edit_count
      last_editor := ua.last_editor
      extraction_date := nowDate
      extraction_time := nowTime }
  match workflow_data with
  | none => pure result
  | some wd => do
    let (o, r) ← workflowParamValues wd parameters_data
    pure { result with
            workflow_name := wd.workflowName.getD ""
            owner_value := o
            project_relevance := r }

/-! ## Pagination: `get_all_pages_in_space` (source lines 60-96)

The endpoint is modelled as the collection itself: the request with offset
`start` and limit 100 answers with the slice
`(items.drop start).take 100` of the collection's items, in order, with
HTTP 200.  (The non-success branch at lines 78-81 merely stops pagination
early, keeping the items already retrieved; the pagination claim
quantifies over collections served successfully, so that branch is not
exercised here.)  The loop tags each returned item with the source
collection key (lines 86-87), extends the accumulated list, and stops as
soon as a page holds fewer than `limit` items (lines 91-92); otherwise it
advances the offset by `limit` (line 94). -/

/-- `page["space_key"] = space_key` (line 87). -/
def tagPage (sk : String) (p : Page) : Page := { p with space_key := some sk }

/-- One iteration of the `while True` loop of lines 66-94, returning the
items retrieved from offset `start` on together with the number of
requests issued. -/
def fetchLoop (space_key : String) (items : List Page) (start : Nat) :
    List Page × Nat :=
  if h : ((items.drop start).take 100).length < 100 then
    (((items.drop start).take 100).map (tagPage space_key), 1)
  else
    let rest := fetchLoop space_key items (start + 100)
    (((items.drop start).take 100).map (tagPage space_key) ++ rest.1, rest.2 + 1)
termination_by items.length - start
decreasing_by
  simp only [List.length_take, List.length_drop, Nat.not_lt] at h
  omega

/-- `get_all_pages_in_space` (lines 60-96): fetch all items of the
collection, 100 per request, starting at offset 0.  Returns the retrieved
(tagged) items and the number of requests issued. -/
def get_all_pages_in_space (space_key : String) (items : List Page) :
    List Page × Nat :=
  fetchLoop space_key items 0

/-! ## Filesystem model for the persistence and retention steps

`FS` models the two directories the code writes: the active output folder
`confluence_data/` and its `archived_snapshots/` subfolder, each an
association list from file name to file content.  A CSV file's content is
a list of lines: the header line or one record row.  (`ensure_output_folder`
only creates the directories and touches no file, so directory existence
is not modelled.) -/

/-- One line of a CSV artifact: the header (written by `writeheader`) or
one record row (written by `writerows`). -/
inductive CsvLine (α : Type) where
  | header
  | record (row : α)
deriving Repr, DecidableEq

/-- The content of one CSV file. -/
abbrev FileContent (α : Type) := List (CsvLine α)

/-- The two directories touched by `write_to_csv` and
`archive_old_snapshots`. -/
structure FS (α : Type) where
  activeFiles : List (String × FileContent α)
  archiveFiles : List (String × FileContent α)
deriving Repr, DecidableEq

/-- The file names present in a directory listing. -/
def fileKeys {β : Type} (l : List (String × β)) : List String := l.map Prod.fst

/-- Reading a file: the content of the (first) entry with the given name. -/
def getFile {β : Type} (l : List (String × β)) (name : String) : Option β :=
  match l.find? (fun e => e.1 == name) with
  | some e => some e.2
  | none => none

/-- Creating or overwriting a file (`open(..., "w")`, `shutil.copy2`,
`shutil.move` into the archive): replaces the entry with the given name,
or appends a new entry when the name is not yet present. -/
def setFile {β : Type} (l : List (String × β)) (name : String) (v : β) :
    List (String × β) :=
  if l.any (fun e => e.1 == name) then
    l.map (fun e => if e.1 == name then (name, v) else e)
  else
    l ++ [(name, v)]

/-! ### The glob pattern `confluence_data_*-W*.csv` (source line 388) -/

/-- Whether `pat` is a prefix of `s` (character lists). -/
def isPrefixL : List Char → List Char → Bool
  | [], _ => true
  | _ :: _, [] => false
  | a :: xs, b :: ys => a == b && isPrefixL xs ys

/-- Whether `pat` occurs as a contiguous subsequence of `s`. -/
def containsSeq (pat : List Char) : List Char → Bool
  | [] => isPrefixL pat []
  | s => isPrefixL pat s ||
      (match s with
       | [] => false
       | _ :: rest => containsSeq pat rest)

/-- The glob `confluence_data_*-W*.csv`: the name decomposes as
`"confluence_data_" ++ a ++ "-W" ++ b ++ ".csv"`, i.e. it starts with the
literal stem, ends with the literal extension, and the region strictly
between the two contains `-W`. -/
def weeklySnapshotName (s : String) : Bool :=
  let cs := s.data
  isPrefixL "confluence_data_".data cs &&
  isPrefixL ".csv".data.reverse cs.reverse &&
  containsSeq "-W".data ((cs.drop 16).take (cs.length - 20))

/-- The sort of line 388: `sorted(...)` over the globbed paths, i.e.
ascending lexicographic order of the file names (all paths share the
directory prefix). -/
def sortByName {β : Type} (l : List (String × β)) : List (String × β) :=
  l.insertionSort (fun a b => a.1 ≤ b.1)

/-- Python's `l[:-k]` (line 393): for `k > 0`, the list without its last
`k` elements; for `k = 0`, the empty list (`l[:-0]` is `l[:0]`). -/
def pySliceDropLast {β : Type} (l : List β) (k : Nat) : List β :=
  if k = 0 then [] else l.take (l.length - k)

/-- `shutil.move(file_path, archive_path)` (line 397) for a file of the
active folder: remove the entry from the active listing and create (or
overwrite) an entry of the same name in the archive with the moved
content.  A name not present in the active folder moves nothing. -/
def moveFile {α : Type} (fs : FS α) (name : String) : FS α :=
  match fs.activeFiles.find? (fun e => e.1 == name) with
  | none => fs
  | some e =>
    { activeFiles := fs.activeFiles.eraseP (fun e2 => e2.1 == name)
      archiveFiles := setFile fs.archiveFiles name e.2 }

/-- `archive_old_snapshots` (lines 381-398): when archival is enabled,
list the weekly snapshot files of the active folder sorted by name; when
their count exceeds the maximum, move every file but the newest
`maxKeep` into the archive, oldest first. -/
def archive_old_snapshots {α : Type} (enabled : Bool) (maxKeep : Nat)
    (fs : FS α) : FS α :=
  if !enabled then fs
  else
    let snapshot_files := sortByName (fs.activeFiles.filter (fun e => weeklySnapshotName e.1))
    if snapshot_files.length > maxKeep then
      let files_to_archive := pySliceDropLast snapshot_files maxKeep
      files_to_archive.foldl (fun s e => moveFile s e.1) fs
    else fs

/-! ### `write_to_csv` (source lines 400-437) -/

def currentFileName : String := "confluence_data_current.csv"

def historyFileName : String := "confluence_data_history.csv"

/-- `f"confluence_data_{week_info['formatted']}.csv"` (line 410). -/
def weeklyFileName (formatted : String) : String :=
  "confluence_data_" ++ formatted ++ ".csv"

/-- `write_to_csv` (lines 400-437): an empty batch returns immediately
with no writes; otherwise write header plus rows as the current snapshot
(overwrite); when history retention is enabled, copy the just-written
current snapshot to the week-named file and append the rows to the
history ledger, prepending the header only when that file did not yet
exist; finally run the retention step. -/
def write_to_csv {α : Type} (keepHistory archiveEnabled : Bool) (maxKeep : Nat)
    (data : List α) (weekFormatted : String) (fs : FS α) : FS α :=
  if data.isEmpty then fs
  else
    let content : FileContent α := CsvLine.header :: data.map CsvLine.record
    let fs1 : FS α :=
      { fs with activeFiles := setFile fs.activeFiles currentFileName content }
    let fs2 : FS α :=
      if keepHistory then
        let fsW : FS α :=
          { fs1 with activeFiles := setFile fs1.activeFiles (weeklyFileName weekFormatted) content }
        let historyExists := fsW.activeFiles.any (fun e => e.1 == historyFileName)
        let oldHistory := (getFile fsW.activeFiles historyFileName).getD []
        let newHistory := oldHistory ++
          (if historyExists then [] else [CsvLine.header]) ++ data.map CsvLine.record
        { fsW with activeFiles := setFile fsW.activeFiles historyFileName newHistory }
      else fs1
    archive_old_snapshots archiveEnabled maxKeep fs2

/-! ## Theorems

### Pagination (claim C3) -/

/-- Characterization of the pagination loop: starting at offset `start`,
it retrieves every remaining item (tagged) and issues
`(remaining / 100) + 1` requests. -/
theorem fetchLoop_spec (space_key : String) (items : List Page) :
    ∀ (n start : Nat), items.length - start ≤ n →
      fetchLoop space_key items start =
        ((items.drop start).map (tagPage space_key), (items.length - start) / 100 + 1) := by
  intro n
  induction n with
  | zero =>
    intro start hle
    have hlt : ((items.drop start).take 100).length < 100 := by
      simp only [List.length_take, List.length_drop]; omega
    rw [fetchLoop, dif_pos hlt,
      List.take_of_length_le (by simp only [List.length_drop]; omega),
      Nat.div_eq_of_lt (by omega)]
  | succ n ih =>
    intro start hle
    by_cases hlt : ((items.drop start).take 100).length < 100
    · have hsmall : items.length - start < 100 := by
        simp only [List.length_take, List.length_drop] at hlt; omega
      rw [fetchLoop, dif_pos hlt,
        List.take_of_length_le (by simp only [List.length_drop]; omega),
        Nat.div_eq_of_lt hsmall]
    · have hge : 100 ≤ items.length - start := by
        simp only [List.length_take, List.length_drop, Nat.not_lt] at hlt; omega
      rw [fetchLoop, dif_neg hlt, ih (start + 100) (by omega)]
      have hsplit : (items.drop start).take 100 ++ items.drop (start + 100) =
          items.drop start := by
        have h1 := List.take_append_drop 100 (items.drop start)
        rwa [List.drop_drop] at h1
      simp only [Prod.mk.injEq]
      constructor
      · rw [← List.map_append, hsplit]
      · omega

/-- Closed form of `get_all_pages_in_space` on a collection served
successfully: all items, tagged, in `K / 100 + 1` requests. -/
theorem get_all_pages_in_space_spec (space_key : String) (items : List Page) :
    get_all_pages_in_space space_key items =
      (items.map (tagPage space_key), items.length / 100 + 1) := by
  have h := fetchLoop_spec space_key items items.length 0 (by omega)
  simpa [get_all_pages_in_space] using h

/-- **C3.** For every collection with `K` items and page size 100, the
paginator terminates (it is a total function), issues exactly
`⌈K/100⌉` requests plus one extra request when `K` is an exact multiple
of 100 (in particular `K = 250` gives 3 requests), and returns exactly
`K` items, each tagged with its source collection identifier. -/
theorem pagination_count_and_items (space_key : String) (items : List Page) :
    (get_all_pages_in_space space_key items).1.length = items.length ∧
    (get_all_pages_in_space space_key items).2 =
      (items.length + 99) / 100 + (if items.length % 100 = 0 then 1 else 0) ∧
    (∀ p ∈ (get_all_pages_in_space space_key items).1,
      p.space_key = some space_key) ∧
    (∀ p250 : Page,
      (get_all_pages_in_space space_key (List.replicate 250 p250)).2 = 3) := by
  refine ⟨?_, ?_, ?_, ?_⟩
  · rw [get_all_pages_in_space_spec]
    simp
  · rw [get_all_pages_in_space_spec]
    by_cases h : items.length % 100 = 0 <;> simp only [h, if_true, if_false] <;> omega
  · rw [get_all_pages_in_space_spec]
    intro p hp
    simp only [List.mem_map] at hp
    obtain ⟨q, _, rfl⟩ := hp
    rfl
  · intro p250
    rw [get_all_pages_in_space_spec]
    simp only [List.length_replicate]

/-! ### Helper lemmas about the filesystem operations -/

theorem mem_pySliceDropLast {β : Type} {l : List β} {k : Nat} {x : β}
    (h : x ∈ pySliceDropLast l k) : x ∈ l := by
  unfold pySliceDropLast at h
  split at h
  · simp at h
  · exact List.take_subset _ _ h

theorem mem_sortByName {β : Type} {l : List (String × β)} {x : String × β} :
    x ∈ sortByName l ↔ x ∈ l :=
  List.mem_insertionSort _

/-- `find?` by one key is unchanged by erasing the entry of a different key. -/
theorem find?_eraseP_of_ne {β : Type} (l : List (String × β)) (nm name : String)
    (hne : name ≠ nm) :
    (l.eraseP (fun e => e.1 == nm)).find? (fun e => e.1 == name) =
      l.find? (fun e => e.1 == name) := by
  induction l with
  | nil => rfl
  | cons x xs ih =>
    by_cases hx : x.1 = nm
    · rw [List.eraseP_cons_of_pos (by simp [hx]),
        List.find?_cons_of_neg _ (by simp [hx]; exact fun hc => hne hc.symm)]
    · rw [List.eraseP_cons_of_neg (by simp [hx])]
      by_cases hxn : x.1 = name
      · rw [List.find?_cons_of_pos _ (by simp [hxn]),
          List.find?_cons_of_pos _ (by simp [hxn])]
      · rw [List.find?_cons_of_neg _ (by simp [hxn]),
          List.find?_cons_of_neg _ (by simp [hxn]), ih]

/-- Moving a file does not disturb active entries with a different name. -/
theorem mem_moveFile_active {α : Type} (fs : FS α) (nm : String)
    (e : String × FileContent α) (hne : e.1 ≠ nm) :
    e ∈ (moveFile fs nm).activeFiles ↔ e ∈ fs.activeFiles := by
  unfold moveFile
  cases h : fs.activeFiles.find? (fun x => x.1 == nm) with
  | none => exact Iff.rfl
  | some found =>
    simp only
    exact List.mem_eraseP_of_neg (by simp [hne])

/-- Reading a file of a different name is unchanged by a move. -/
theorem getFile_moveFile_active {α : Type} (fs : FS α) (nm name : String)
    (hne : name ≠ nm) :
    getFile (moveFile fs nm).activeFiles name = getFile fs.activeFiles name := by
  unfold moveFile
  cases h : fs.activeFiles.find? (fun x => x.1 == nm) with
  | none => rfl
  | some found =>
    simp only [getFile]
    rw [find?_eraseP_of_ne _ _ _ hne]

theorem fileKeys_setFile {β : Type} (l : List (String × β)) (nm : String) (v : β)
    (k : String) (hk : k ∈ fileKeys (setFile l nm v)) :
    k ∈ fileKeys l ∨ k = nm := by
  unfold setFile at hk
  split at hk
  · rw [fileKeys, List.map_map] at hk
    simp only [List.mem_map, Function.comp] at hk
    obtain ⟨e, he, heq⟩ := hk
    by_cases h : e.1 = nm
    · rw [if_pos (by simp [h])] at heq
      exact Or.inr heq.symm
    · rw [if_neg (by simp [h])] at heq
      exact Or.inl (by rw [fileKeys]; exact List.mem_map.mpr ⟨e, he, heq⟩)
  · rw [fileKeys, List.map_append] at hk
    rcases List.mem_append.mp hk with h | h
    · exact Or.inl h
    · simp at h
      exact Or.inr h

theorem fileKeys_moveFile_archive {α : Type} (fs : FS α) (nm k : String)
    (hk : k ∈ fileKeys (moveFile fs nm).archiveFiles) :
    k ∈ fileKeys fs.archiveFiles ∨ k = nm := by
  unfold moveFile at hk
  cases h : fs.activeFiles.find? (fun x => x.1 == nm) with
  | none => rw [h] at hk; exact Or.inl hk
  | some found =>
    rw [h] at hk
    exact fileKeys_setFile _ _ _ _ hk

/-- Folding moves of files with weekly names does not disturb active
entries whose name is not weekly. -/
theorem foldl_moveFile_active_of_not_weekly {α : Type}
    (l : List (String × FileContent α)) (fs : FS α)
    (hl : ∀ x ∈ l, weeklySnapshotName x.1 = true)
    (e : String × FileContent α) (he : weeklySnapshotName e.1 = false) :
    e ∈ (l.foldl (fun s x => moveFile s x.1) fs).activeFiles ↔
      e ∈ fs.activeFiles := by
  induction l generalizing fs with
  | nil => exact Iff.rfl
  | cons x xs ih =>
    rw [List.foldl_cons,
      ih (moveFile fs x.1) (fun y hy => hl y (List.mem_cons_of_mem _ hy))]
    exact mem_moveFile_active fs x.1 e (by
      intro hax
      rw [hax] at he
      exact absurd (hl x (List.mem_cons_self _ _)) (by simp [he]))

/-- As above, but for reading a file by name. -/
theorem foldl_moveFile_getFile_of_not_weekly {α : Type}
    (l : List (String × FileContent α)) (fs : FS α)
    (hl : ∀ x ∈ l, weeklySnapshotName x.1 = true)
    (name : String) (hn : weeklySnapshotName name = false) :
    getFile ((l.foldl (fun s x => moveFile s x.1) fs).activeFiles) name =
      getFile fs.activeFiles name := by
  induction l generalizing fs with
  | nil => rfl
  | cons x xs ih =>
    rw [List.foldl_cons,
      ih (moveFile fs x.1) (fun y hy => hl y (List.mem_cons_of_mem _ hy))]
    exact getFile_moveFile_active fs x.1 name (by
      intro hax
      rw [hax] at hn
      exact absurd (hl x (List.mem_cons_self _ _)) (by simp [hn]))

/-- Folding moves only ever adds the moved names to the archive listing. -/
theorem foldl_moveFile_archive_keys {α : Type}
    (l : List (String × FileContent α)) (fs : FS α) (k : String)
    (hk : k ∈ fileKeys (l.foldl (fun s x => moveFile s x.1) fs).archiveFiles) :
    k ∈ fileKeys fs.archiveFiles ∨ k ∈ fileKeys l := by
  induction l generalizing fs with
  | nil => exact Or.inl hk
  | cons x xs ih =>
    rw [List.foldl_cons] at hk
    rcases ih (moveFile fs x.1) hk with h | h
    · rcases fileKeys_moveFile_archive fs x.1 k h with h2 | h2
      · exact Or.inl h2
      · exact Or.inr (by simp [fileKeys, h2])
    · exact Or.inr (by
        simp only [fileKeys, List.map_cons, List.mem_cons]
        exact Or.inr h)

/-- Every file the retention step selects for archiving has a weekly name
and is one of the active files. -/
theorem mem_files_to_archive {α : Type} {fs : FS α} {maxKeep : Nat}
    {x : String × FileContent α}
    (hx : x ∈ pySliceDropLast
      (sortByName (fs.activeFiles.filter (fun e => weeklySnapshotName e.1)))
      maxKeep) :
    x ∈ fs.activeFiles ∧ weeklySnapshotName x.1 = true := by
  have h1 : x ∈ sortByName (fs.activeFiles.filter (fun e => weeklySnapshotName e.1)) :=
    mem_pySliceDropLast hx
  have h2 := List.mem_filter.mp (mem_sortByName.mp h1)
  exact ⟨h2.1, h2.2⟩

/-! ### Empty-batch persistence (claims C7 and C9) -/

/-- **C7.** For an empty record batch, the persistence step performs no
writes at all: the filesystem state — in particular the current snapshot,
the weekly snapshot, and the history ledger — is returned unchanged, and
the run is a no-op rather than an error (the function is total and takes
the early-return branch of lines 402-404). -/
theorem empty_batch_no_writes {α : Type} (keepHistory archiveEnabled : Bool)
    (maxKeep : Nat) (weekFormatted : String) (fs : FS α) :
    write_to_csv keepHistory archiveEnabled maxKeep ([] : List α) weekFormatted fs = fs ∧
    getFile (write_to_csv keepHistory archiveEnabled maxKeep ([] : List α)
      weekFormatted fs).activeFiles currentFileName =
      getFile fs.activeFiles currentFileName ∧
    getFile (write_to_csv keepHistory archiveEnabled maxKeep ([] : List α)
      weekFormatted fs).activeFiles (weeklyFileName weekFormatted) =
      getFile fs.activeFiles (weeklyFileName weekFormatted) ∧
    getFile (write_to_csv keepHistory archiveEnabled maxKeep ([] : List α)
      weekFormatted fs).activeFiles historyFileName =
      getFile fs.activeFiles historyFileName :=
  ⟨rfl, rfl, rfl, rfl⟩

/-- **C9.** When the record batch is empty, retention/archival is never
invoked: `write_to_csv` returns before calling `archive_old_snapshots`,
so even when the number of weekly snapshot files exceeds the configured
maximum, no file is moved to the archive. -/
theorem empty_batch_skips_retention {α : Type} (keepHistory archiveEnabled : Bool)
    (maxKeep : Nat) (weekFormatted : String) (fs : FS α)
    (_hcount : maxKeep <
      (fs.activeFiles.filter (fun e => weeklySnapshotName e.1)).length) :
    (write_to_csv keepHistory archiveEnabled maxKeep ([] : List α)
        weekFormatted fs).activeFiles = fs.activeFiles ∧
    (write_to_csv keepHistory archiveEnabled maxKeep ([] : List α)
        weekFormatted fs).archiveFiles = fs.archiveFiles :=
  ⟨rfl, rfl⟩

/-- Witness for C9: a filesystem holding one weekly snapshot file with
`maxKeep = 0`, exceeding the cap; nothing is archived. -/
theorem empty_batch_skips_retention_witness :
    (0 < ((FS.mk [("confluence_data_2024-W01.csv", ([CsvLine.header] : FileContent Nat))] []).activeFiles.filter
        (fun e => weeklySnapshotName e.1)).length) ∧
    (write_to_csv true true 0 ([] : List Nat) "2024-W02"
        (FS.mk [("confluence_data_2024-W01.csv", [CsvLine.header])] [])).activeFiles =
      (FS.mk [("confluence_data_2024-W01.csv", ([CsvLine.header] : FileContent Nat))] []).activeFiles ∧
    (write_to_csv true true 0 ([] : List Nat) "2024-W02"
        (FS.mk [("confluence_data_2024-W01.csv", [CsvLine.header])] [])).archiveFiles =
      (FS.mk [("confluence_data_2024-W01.csv", ([CsvLine.header] : FileContent Nat))] []).archiveFiles := by
  refine ⟨by decide, ?_⟩
  exact empty_batch_skips_retention true true 0 "2024-W02"
    (FS.mk [("confluence_data_2024-W01.csv", [CsvLine.header])] []) (by decide)

/-! ### Retention touches only weekly snapshot files (claim C10) -/

/-- Retention with archival disabled is the identity (lines 383-384). -/
theorem archive_old_snapshots_disabled {α : Type} (maxKeep : Nat) (fs : FS α) :
    archive_old_snapshots false maxKeep fs = fs := rfl

/-- Unfolding of the retention step with archival enabled. -/
theorem archive_old_snapshots_enabled {α : Type} (maxKeep : Nat) (fs : FS α) :
    archive_old_snapshots true maxKeep fs =
      if (sortByName (fs.activeFiles.filter (fun e => weeklySnapshotName e.1))).length
          > maxKeep then
        (pySliceDropLast
          (sortByName (fs.activeFiles.filter (fun e => weeklySnapshotName e.1)))
          maxKeep).foldl (fun s e => moveFile s e.1) fs
      else fs := rfl

/-- **C10.** The retention step only ever moves files whose names match
the weekly-snapshot pattern `confluence_data_*-W*.csv`: every active
entry with a non-matching name (in particular the current snapshot
`confluence_data_current.csv` and the history ledger
`confluence_data_history.csv`, which do not match) is still present,
unmodified, afterwards, and every name the archive gains matches the
pattern. -/
theorem retention_moves_only_weekly_files {α : Type} (enabled : Bool)
    (maxKeep : Nat) (fs : FS α) :
    (∀ e : String × FileContent α, weeklySnapshotName e.1 = false →
      (e ∈ (archive_old_snapshots enabled maxKeep fs).activeFiles ↔
        e ∈ fs.activeFiles)) ∧
    (∀ k : String,
      k ∈ fileKeys (archive_old_snapshots enabled maxKeep fs).archiveFiles →
      k ∈ fileKeys fs.archiveFiles ∨ weeklySnapshotName k = true) ∧
    weeklySnapshotName currentFileName = false ∧
    weeklySnapshotName historyFileName = false := by
  refine ⟨?_, ?_, rfl, rfl⟩
  · intro e he
    cases enabled with
    | false => rw [archive_old_snapshots_disabled]
    | true =>
      rw [archive_old_snapshots_enabled]
      split
      · exact foldl_moveFile_active_of_not_weekly _ fs
          (fun x hx => (mem_files_to_archive hx).2) e he
      · exact Iff.rfl
  · intro k hk
    cases enabled with
    | false => rw [archive_old_snapshots_disabled] at hk; exact Or.inl hk
    | true =>
      rw [archive_old_snapshots_enabled] at hk
      split at hk
      · rcases foldl_moveFile_archive_keys _ fs k hk with h | h
        · exact Or.inl h
        · right
          simp only [fileKeys, List.mem_map] at h
          obtain ⟨e, he, rfl⟩ := h
          exact (mem_files_to_archive he).2
      · exact Or.inl hk

/-! ### Reading and writing files of the association-list directories -/

theorem string_data_inj {s t : String} (h : s.data = t.data) : s = t :=
  congrArg String.mk h

theorem beq_false_of_ne {a b : String} (h : a ≠ b) : (a == b) = false := by
  cases hb : a == b with
  | false => rfl
  | true => exact absurd (eq_of_beq hb) h

theorem weeklyFileName_inj {w1 w2 : String}
    (h : weeklyFileName w1 = weeklyFileName w2) : w1 = w2 := by
  unfold weeklyFileName at h
  have hd := congrArg String.data h
  simp only [String.data_append] at hd
  exact string_data_inj (List.append_cancel_left (List.append_cancel_right hd))

theorem historyFileName_eq_weekly : historyFileName = weeklyFileName "history" := rfl

theorem weeklyFileName_ne_historyFileName {w : String} (hw : w ≠ "history") :
    weeklyFileName w ≠ historyFileName := fun h =>
  hw (weeklyFileName_inj (h.trans historyFileName_eq_weekly))

theorem find?_setFile_map {β : Type} (l : List (String × β)) (n : String) (v : β) :
    ((l.map (fun e => if e.1 == n then (n, v) else e)).find? (fun e => e.1 == n)) =
      if l.any (fun e => e.1 == n) then some (n, v) else none := by
  induction l with
  | nil => rfl
  | cons x xs ih =>
    simp only [List.map_cons, List.any_cons]
    by_cases hx : x.1 = n
    · rw [if_pos (by simp [hx]), List.find?_cons_of_pos _ (by simp),
        if_pos (by simp [hx])]
    · rw [if_neg (by simp [hx]), List.find?_cons_of_neg _ (by simp [hx]), ih]
      simp only [beq_false_of_ne hx, Bool.false_or]

theorem find?_setFile_map_of_ne {β : Type} (l : List (String × β)) (n n' : String)
    (v : β) (hne : n ≠ n') :
    ((l.map (fun e => if e.1 == n' then (n', v) else e)).find? (fun e => e.1 == n)) =
      l.find? (fun e => e.1 == n) := by
  induction l with
  | nil => rfl
  | cons x xs ih =>
    simp only [List.map_cons]
    by_cases hx : x.1 = n'
    · rw [if_pos (by simp [hx]), List.find?_cons_of_neg _ (by simp [Ne.symm hne]),
        List.find?_cons_of_neg _ (by simp [hx, Ne.symm hne])]
      exact ih
    · rw [if_neg (by simp [hx])]
      by_cases hxn : x.1 = n
      · rw [List.find?_cons_of_pos _ (by simp [hxn]),
          List.find?_cons_of_pos _ (by simp [hxn])]
      · rw [List.find?_cons_of_neg _ (by simp [hxn]),
          List.find?_cons_of_neg _ (by simp [hxn]), ih]

theorem getFile_setFile_self {β : Type} (l : List (String × β)) (n : String) (v : β) :
    getFile (setFile l n v) n = some v := by
  unfold getFile setFile
  by_cases h : l.any (fun e => e.1 == n) = true
  · rw [if_pos h, find?_setFile_map, if_pos h]
  · rw [if_neg h, List.find?_append]
    have hnone : l.find? (fun e => e.1 == n) = none := by
      rw [List.find?_eq_none]
      intro x hx hc
      exact h (List.any_eq_true.mpr ⟨x, hx, hc⟩)
    rw [hnone]
    simp [List.find?]

theorem getFile_setFile_of_ne {β : Type} (l : List (String × β)) (n n' : String)
    (v : β) (hne : n ≠ n') :
    getFile (setFile l n' v) n = getFile l n := by
  unfold getFile setFile
  by_cases h : l.any (fun e => e.1 == n') = true
  · rw [if_pos h, find?_setFile_map_of_ne _ _ _ _ hne]
  · rw [if_neg h, List.find?_append]
    have hlast : ([(n', v)].find? (fun e => e.1 == n)) = none := by
      simp only [List.find?, beq_false_of_ne (Ne.symm hne)]
    rw [hlast, Option.or_none]

theorem any_map_setFile {β : Type} (l : List (String × β)) (n n' : String) (v : β) :
    (l.map (fun e => if e.1 == n' then (n', v) else e)).any (fun e => e.1 == n) =
      l.any (fun e => e.1 == n) := by
  induction l with
  | nil => rfl
  | cons x xs ih =>
    simp only [List.map_cons, List.any_cons, ih]
    congr 1
    by_cases hx : x.1 = n'
    · rw [if_pos (by simp [hx]), hx]
    · rw [if_neg (by simp [hx])]

theorem any_setFile_of_ne {β : Type} (l : List (String × β)) (n n' : String) (v : β)
    (hne : n ≠ n') :
    (setFile l n' v).any (fun e => e.1 == n) = l.any (fun e => e.1 == n) := by
  unfold setFile
  split
  · exact any_map_setFile l n n' v
  · rw [List.any_append]
    simp only [List.any_cons, List.any_nil, beq_false_of_ne (Ne.symm hne),
      Bool.or_false, Bool.or_self]

theorem getFile_none_iff_any_false {β : Type} (l : List (String × β)) (n : String) :
    getFile l n = none ↔ l.any (fun e => e.1 == n) = false := by
  unfold getFile
  rcases h : l.find? (fun e => e.1 == n) with _ | e
  · rw [h]
    rw [List.find?_eq_none] at h
    simp only [List.any_eq_false]
    exact ⟨fun _ x hx => h x hx, fun _ => trivial⟩
  · rw [h]
    have hp := List.find?_some h
    have hm := List.mem_of_find?_eq_some h
    constructor
    · intro hc
      exact Option.noConfusion hc
    · intro hall
      rw [List.any_eq_false] at hall
      exact absurd hp (hall e hm)

theorem any_true_of_getFile_some {β : Type} {l : List (String × β)} {n : String}
    {v : β} (h : getFile l n = some v) :
    l.any (fun e => e.1 == n) = true := by
  by_contra hc
  rw [Bool.not_eq_true] at hc
  have := (getFile_none_iff_any_false l n).mpr hc
  rw [this] at h
  exact Option.noConfusion h

/-- Reading a non-weekly file of the active folder is unchanged by the
retention step. -/
theorem getFile_archive_of_not_weekly {α : Type} (enabled : Bool) (maxKeep : Nat)
    (fs : FS α) (name : String) (hn : weeklySnapshotName name = false) :
    getFile (archive_old_snapshots enabled maxKeep fs).activeFiles name =
      getFile fs.activeFiles name := by
  cases enabled with
  | false => rw [archive_old_snapshots_disabled]
  | true =>
    rw [archive_old_snapshots_enabled]
    split
    · exact foldl_moveFile_getFile_of_not_weekly _ fs
        (fun x hx => (mem_files_to_archive hx).2) name hn
    · rfl

/-! ### The history ledger is append-only (claim C5) -/

/-- Unfolding of one run of `write_to_csv` on a non-empty batch with
history retention on, with all `let`-bound intermediate states inlined. -/
theorem write_to_csv_cons_keepHistory {α : Type} (archE : Bool) (mk : Nat)
    (d : α) (ds : List α) (w : String) (fs : FS α) :
    write_to_csv true archE mk (d :: ds) w fs =
      archive_old_snapshots archE mk
        { fs with activeFiles :=
            (setFile
              (setFile (setFile fs.activeFiles currentFileName
                  (CsvLine.header :: (d :: ds).map CsvLine.record))
                (weeklyFileName w)
                (CsvLine.header :: (d :: ds).map CsvLine.record))
              historyFileName
              ((getFile
                  (setFile (setFile fs.activeFiles currentFileName
                      (CsvLine.header :: (d :: ds).map CsvLine.record))
                    (weeklyFileName w)
                    (CsvLine.header :: (d :: ds).map CsvLine.record))
                  historyFileName).getD [] ++
                (if (setFile (setFile fs.activeFiles currentFileName
                      (CsvLine.header :: (d :: ds).map CsvLine.record))
                    (weeklyFileName w)
                    (CsvLine.header :: (d :: ds).map CsvLine.record)).any
                    (fun e => e.1 == historyFileName) then []
                  else [CsvLine.header]) ++
                (d :: ds).map CsvLine.record)) } := rfl

/-- The effect of one non-empty run (history retention on) on the history
ledger: the previous ledger content, then the header when the ledger did
not yet exist, then the batch rows. -/
theorem write_to_csv_history_effect {α : Type} (archE : Bool) (mk : Nat)
    (data : List α) (w : String) (fs : FS α) (hd : data ≠ []) (hw : w ≠ "history") :
    getFile (write_to_csv true archE mk data w fs).activeFiles historyFileName =
      some ((getFile fs.activeFiles historyFileName).getD [] ++
        (if fs.activeFiles.any (fun e => e.1 == historyFileName) then []
          else [CsvLine.header]) ++ data.map CsvLine.record) := by
  obtain ⟨d, ds, rfl⟩ : ∃ d ds, data = d :: ds := by
    cases data with
    | nil => exact absurd rfl hd
    | cons d ds => exact ⟨d, ds, rfl⟩
  rw [write_to_csv_cons_keepHistory,
    getFile_archive_of_not_weekly _ _ _ _ (by rfl),
    getFile_setFile_self,
    getFile_setFile_of_ne _ _ _ _ (weeklyFileName_ne_historyFileName hw).symm,
    getFile_setFile_of_ne _ _ _ _ (by decide),
    any_setFile_of_ne _ _ _ _ (weeklyFileName_ne_historyFileName hw).symm,
    any_setFile_of_ne _ _ _ _ (by decide)]

/-- **C5.** With history retention enabled, running the persistence step
twice with non-empty batches in (different) weeks, starting from a state
without a history ledger, leaves the ledger containing the records of
both runs in order — the first run's records unchanged — preceded by
exactly one header line, written on the first run only (when the ledger
file did not previously exist). -/
theorem history_ledger_append_only {α : Type} (archE : Bool) (mk : Nat)
    (data1 data2 : List α) (w1 w2 : String) (fs : FS α)
    (h1 : data1 ≠ []) (h2 : data2 ≠ []) (_hdiff : w1 ≠ w2)
    (hno : getFile fs.activeFiles historyFileName = none)
    (hw1 : w1 ≠ "history") (hw2 : w2 ≠ "history") :
    getFile (write_to_csv true archE mk data1 w1 fs).activeFiles historyFileName =
      some (CsvLine.header :: data1.map CsvLine.record) ∧
    getFile (write_to_csv true archE mk data2 w2
        (write_to_csv true archE mk data1 w1 fs)).activeFiles historyFileName =
      some (CsvLine.header ::
        (data1.map CsvLine.record ++ data2.map CsvLine.record)) := by
  have hanyno : fs.activeFiles.any (fun e => e.1 == historyFileName) = false :=
    (getFile_none_iff_any_false _ _).mp hno
  have e1 := write_to_csv_history_effect archE mk data1 w1 fs h1 hw1
  rw [hno, hanyno] at e1
  simp only [Option.getD_none, if_false, List.nil_append, List.singleton_append] at e1
  refine ⟨e1, ?_⟩
  have e2 := write_to_csv_history_effect archE mk data2 w2
    (write_to_csv true archE mk data1 w1 fs) h2 hw2
  rw [e1, any_true_of_getFile_some e1] at e2
  simpa using e2

/-- Witness for C5 at a concrete input: two one-record runs in weeks
`2024-W01` and `2024-W02` on an initially empty filesystem. -/
theorem history_ledger_append_only_witness :
    (([1] : List Nat) ≠ [] ∧ ([2] : List Nat) ≠ [] ∧ ("2024-W01" : String) ≠ "2024-W02" ∧
      getFile (FS.mk ([] : List (String × FileContent Nat)) []).activeFiles
        historyFileName = none ∧
      ("2024-W01" : String) ≠ "history" ∧ ("2024-W02" : String) ≠ "history") ∧
    getFile (write_to_csv true true 12 [1] "2024-W01"
        (FS.mk ([] : List (String × FileContent Nat)) [])).activeFiles
      historyFileName = some [CsvLine.header, CsvLine.record 1] ∧
    getFile (write_to_csv true true 12 [2] "2024-W02"
        (write_to_csv true true 12 [1] "2024-W01"
          (FS.mk ([] : List (String × FileContent Nat)) []))).activeFiles
      historyFileName =
      some [CsvLine.header, CsvLine.record 1, CsvLine.record 2] := by
  refine ⟨⟨by decide, by decide, by decide, rfl, by decide, by decide⟩, ?_, ?_⟩
  · exact (history_ledger_append_only true 12 [1] [2] "2024-W01" "2024-W02"
      (FS.mk [] []) (by decide) (by decide) (by decide) rfl (by decide) (by decide)).1
  · exact (history_ledger_append_only true 12 [1] [2] "2024-W01" "2024-W02"
      (FS.mk [] []) (by decide) (by decide) (by decide) rfl (by decide) (by decide)).2

/-! ### Retention invariant (claim C4) -/

theorem contains_iff_mem {ks : List String} {a : String} :
    ks.contains a = true ↔ a ∈ ks := List.elem_iff

theorem mem_fileKeys {β : Type} {l : List (String × β)} {e : String × β} (h : e ∈ l) :
    e.1 ∈ fileKeys l := List.mem_map.mpr ⟨e, h, rfl⟩

theorem mem_fileKeys_iff {β : Type} {l : List (String × β)} {k : String} :
    k ∈ fileKeys l ↔ ∃ e ∈ l, e.1 = k := by
  simp [fileKeys]

theorem fileKeys_cons {β : Type} (x : String × β) (xs : List (String × β)) :
    fileKeys (x :: xs) = x.1 :: fileKeys xs := rfl

theorem fileKeys_append {β : Type} (l1 l2 : List (String × β)) :
    fileKeys (l1 ++ l2) = fileKeys l1 ++ fileKeys l2 := List.map_append _ _ _

/-- With distinct keys, `find?` by the key of a member returns that member. -/
theorem find?_key_of_mem_of_nodup {β : Type} {l : List (String × β)}
    {e : String × β} (hm : e ∈ l) (hnd : (fileKeys l).Nodup) :
    l.find? (fun x => x.1 == e.1) = some e := by
  induction l with
  | nil => cases hm
  | cons x xs ih =>
    rw [fileKeys_cons, List.nodup_cons] at hnd
    rcases List.mem_cons.mp hm with rfl | hm2
    · rw [List.find?_cons_of_pos _ (by simp)]
    · have hxe : ¬ x.1 = e.1 := by
        intro hc
        exact hnd.1 (by rw [hc]; exact mem_fileKeys hm2)
      rw [List.find?_cons_of_neg _ (by simp [hxe])]
      exact ih hm2 hnd.2

/-- Writing a file under a name not yet present appends a new entry. -/
theorem setFile_of_not_mem_keys {β : Type} {l : List (String × β)} {n : String}
    {v : β} (h : n ∉ fileKeys l) : setFile l n v = l ++ [(n, v)] := by
  unfold setFile
  rw [if_neg]
  intro hc
  rw [List.any_eq_true] at hc
  obtain ⟨e, he, heq⟩ := hc
  exact h (by rw [← eq_of_beq heq]; exact mem_fileKeys he)

/-- With distinct keys, erasing by key equals filtering that key out. -/
theorem eraseP_key_eq_filter {β : Type} {l : List (String × β)} {n : String}
    (hnd : (fileKeys l).Nodup) :
    l.eraseP (fun e => e.1 == n) = l.filter (fun e => !(e.1 == n)) := by
  induction l with
  | nil => rfl
  | cons x xs ih =>
    rw [fileKeys_cons, List.nodup_cons] at hnd
    by_cases hx : x.1 = n
    · rw [List.eraseP_cons_of_pos (by simp [hx]), List.filter_cons_of_neg (by simp [hx])]
      symm
      rw [List.filter_eq_self]
      intro a ha
      have hane : ¬ a.1 = n := by
        intro hc
        exact hnd.1 (by rw [hx, ← hc]; exact mem_fileKeys ha)
      simp [hane]
    · rw [List.eraseP_cons_of_neg (by simp [hx]),
        List.filter_cons_of_pos (by simp [hx]), ih hnd.2]

/-- Closed form of the retention step's move loop: moving the files of `l`
(all present in the active folder, keys distinct, names absent from the
archive) removes exactly those entries from the active folder and appends
them to the archive. -/
theorem foldl_moveFile_spec {α : Type} (l : List (String × FileContent α)) :
    ∀ (fs : FS α),
      (∀ e ∈ l, e ∈ fs.activeFiles) →
      (fileKeys fs.activeFiles).Nodup →
      (fileKeys l).Nodup →
      (∀ e ∈ l, e.1 ∉ fileKeys fs.archiveFiles) →
      l.foldl (fun s e => moveFile s e.1) fs =
        { activeFiles := fs.activeFiles.filter (fun e => !((fileKeys l).contains e.1))
          archiveFiles := fs.archiveFiles ++ l } := by
  induction l with
  | nil =>
    intro fs _ _ _ _
    have hfilter : fs.activeFiles.filter
        (fun e => !((fileKeys ([] : List (String × FileContent α))).contains e.1)) =
        fs.activeFiles := by
      rw [List.filter_eq_self]
      intro a _
      rfl
    rw [List.foldl_nil, hfilter, List.append_nil]
  | cons x xs ih =>
    intro fs hsub hnd hndl hdisj
    rw [fileKeys_cons, List.nodup_cons] at hndl
    have hxmem : x ∈ fs.activeFiles := hsub x (List.mem_cons_self _ _)
    have hfind : fs.activeFiles.find? (fun e => e.1 == x.1) = some x :=
      find?_key_of_mem_of_nodup hxmem hnd
    have hmove : moveFile fs x.1 =
        { activeFiles := fs.activeFiles.eraseP (fun e => e.1 == x.1)
          archiveFiles := fs.archiveFiles ++ [(x.1, x.2)] } := by
      simp only [moveFile, hfind]
      rw [setFile_of_not_mem_keys (hdisj x (List.mem_cons_self _ _))]
    have hsub2 : ∀ e ∈ xs, e ∈ fs.activeFiles.eraseP (fun e2 => e2.1 == x.1) := by
      intro e he
      rw [eraseP_key_eq_filter hnd, List.mem_filter]
      refine ⟨hsub e (List.mem_cons_of_mem _ he), ?_⟩
      have hne : ¬ e.1 = x.1 := fun hc => hndl.1 (by rw [← hc]; exact mem_fileKeys he)
      simp [hne]
    have hnd2 : (fileKeys (fs.activeFiles.eraseP (fun e2 => e2.1 == x.1))).Nodup :=
      List.Nodup.sublist ((List.eraseP_sublist _).map Prod.fst) hnd
    have hdisj2 : ∀ e ∈ xs,
        e.1 ∉ fileKeys (fs.archiveFiles ++ [(x.1, x.2)]) := by
      intro e he hc
      rw [fileKeys_append] at hc
      rcases List.mem_append.mp hc with hc | hc
      · exact hdisj e (List.mem_cons_of_mem _ he) hc
      · rw [fileKeys_cons] at hc
        rcases List.mem_cons.mp hc with hc | hc
        · exact hndl.1 (by rw [← hc]; exact mem_fileKeys he)
        · cases hc
    rw [List.foldl_cons, hmove,
      ih { activeFiles := fs.activeFiles.eraseP (fun e2 => e2.1 == x.1)
           archiveFiles := fs.archiveFiles ++ [(x.1, x.2)] } hsub2 hnd2 hndl.2 hdisj2]
    have hactive : (fs.activeFiles.eraseP (fun e2 => e2.1 == x.1)).filter
        (fun e => !((fileKeys xs).contains e.1)) =
        fs.activeFiles.filter (fun e => !((fileKeys (x :: xs)).contains e.1)) := by
      rw [eraseP_key_eq_filter hnd, List.filter_filter]
      apply List.filter_congr
      intro a _
      rw [fileKeys_cons, List.contains_cons]
      cases h1 : a.1 == x.1 <;> cases h2 : (fileKeys xs).contains a.1 <;> rfl
    rw [hactive, List.append_assoc, List.singleton_append]

/-- With distinct keys, filtering a directory listing down to the keys of
a sub-listing recovers exactly that sub-listing (up to order). -/
theorem filter_contains_keys_perm {α : Type}
    (l : List (String × FileContent α)) :
    ∀ (sub : List (String × FileContent α)),
      (fileKeys l).Nodup → (∀ e ∈ sub, e ∈ l) → (fileKeys sub).Nodup →
      (l.filter (fun e => (fileKeys sub).contains e.1)).Perm sub := by
  induction l with
  | nil =>
    intro sub _ hsub _
    have hn : sub = [] :=
      List.eq_nil_iff_forall_not_mem.mpr fun a ha => (List.not_mem_nil a) (hsub a ha)
    rw [hn]
    exact List.Perm.refl _
  | cons x l2 ih =>
    intro sub hnd hsub hsubnd
    rw [fileKeys_cons, List.nodup_cons] at hnd
    by_cases hcx : x.1 ∈ fileKeys sub
    · obtain ⟨s, hs, hsk⟩ := mem_fileKeys_iff.mp hcx
      have hsx : s = x := by
        rcases List.mem_cons.mp (hsub s hs) with h | h
        · exact h
        · exact absurd (hsk ▸ mem_fileKeys h) hnd.1
      subst hsx
      obtain ⟨s1, s2, rfl⟩ := List.append_of_mem hs
      have hkeys := hsubnd
      rw [fileKeys_append, fileKeys_cons, List.nodup_append] at hkeys
      have hstep : (s :: l2).filter (fun e => (fileKeys (s1 ++ s :: s2)).contains e.1) =
          s :: l2.filter (fun e => (fileKeys (s1 ++ s :: s2)).contains e.1) :=
        List.filter_cons_of_pos (contains_iff_mem.mpr hcx)
      rw [hstep]
      refine List.Perm.trans (List.Perm.cons s ?_) List.perm_middle.symm
      have hfeq : l2.filter (fun e => (fileKeys (s1 ++ s :: s2)).contains e.1) =
          l2.filter (fun e => (fileKeys (s1 ++ s2)).contains e.1) := by
        apply List.filter_congr
        intro a ha
        have hax : a.1 ≠ s.1 := fun hc => hnd.1 (by rw [← hc]; exact mem_fileKeys ha)
        rw [Bool.eq_iff_iff, contains_iff_mem, contains_iff_mem,
          fileKeys_append, fileKeys_cons, fileKeys_append]
        simp [List.mem_append, hax]
      rw [hfeq]
      apply ih (s1 ++ s2) hnd.2
      · intro e he
        have hes : e ≠ s := by
          intro hc
          subst hc
          rcases List.mem_append.mp he with h | h
          · exact hkeys.2.2 (mem_fileKeys h) (List.mem_cons_self _ _)
          · exact (List.nodup_cons.mp hkeys.2.1).1 (mem_fileKeys h)
        have hesub : e ∈ s1 ++ s :: s2 := by
          rcases List.mem_append.mp he with h | h
          · exact List.mem_append.mpr (Or.inl h)
          · exact List.mem_append.mpr (Or.inr (List.mem_cons_of_mem _ h))
        rcases List.mem_cons.mp (hsub e hesub) with h | h
        · exact absurd h hes
        · exact h
      · have hsl : List.Sublist (s1 ++ s2) (s1 ++ s :: s2) :=
          List.Sublist.append_left (List.sublist_cons_self s s2) s1
        exact List.Nodup.sublist (hsl.map Prod.fst) hsubnd
    · have hstep : (x :: l2).filter (fun e => (fileKeys sub).contains e.1) =
          l2.filter (fun e => (fileKeys sub).contains e.1) :=
        List.filter_cons_of_neg (fun hc => hcx (contains_iff_mem.mp hc))
      rw [hstep]
      apply ih sub hnd.2
      · intro e he
        rcases List.mem_cons.mp (hsub e he) with h | h
        · exact absurd (by rw [← h]; exact mem_fileKeys he) hcx
        · exact h
      · exact hsubnd

instance keyLeIsTotal {β : Type} :
    IsTotal (String × β) (fun a b => a.1 ≤ b.1) :=
  ⟨fun a b => le_total a.1 b.1⟩

instance keyLeIsTrans {β : Type} :
    IsTrans (String × β) (fun a b => a.1 ≤ b.1) :=
  ⟨fun _ _ _ h1 h2 => le_trans h1 h2⟩

/-- Splitting a listing with distinct keys at a prefix: filtering away
the prefix's keys leaves exactly the suffix. -/
theorem filter_not_keys_split {α : Type} (t d : List (String × FileContent α))
    (hnd : (fileKeys (t ++ d)).Nodup) :
    (t ++ d).filter (fun e => !((fileKeys t).contains e.1)) = d := by
  rw [fileKeys_append, List.nodup_append] at hnd
  rw [List.filter_append]
  have h1 : t.filter (fun e => !((fileKeys t).contains e.1)) = [] := by
    rw [List.filter_eq_nil_iff]
    intro a ha hc
    have hct : (fileKeys t).contains a.1 = true :=
      contains_iff_mem.mpr (mem_fileKeys ha)
    simp only [hct] at hc
    cases hc
  have h2 : d.filter (fun e => !((fileKeys t).contains e.1)) = d := by
    rw [List.filter_eq_self]
    intro a ha
    have hnotin : a.1 ∉ fileKeys t := fun hc => hnd.2.2 hc (mem_fileKeys ha)
    have hcf : (fileKeys t).contains a.1 = false := by
      cases hcc : (fileKeys t).contains a.1 with
      | false => rfl
      | true => exact absurd (contains_iff_mem.mp hcc) hnotin
    simp only [hcf, Bool.not_false]
  rw [h1, h2, List.nil_append]

/-- **C4.** After the retention step runs with archival enabled — for a
positive retention cap, distinct active file names, and active names
absent from the archive — at most `maxKeep` weekly snapshot files remain
in the active folder, namely exactly the newest ones in ascending
filename order (every archived file's name is `≤` every kept weekly
file's name); every excess file previously present now exists,
unmodified, in the archive folder under the same filename; and no file
is duplicated or lost (the combined multiset of active and archive
entries is preserved). -/
theorem retention_invariant {α : Type} (maxKeep : Nat) (fs : FS α)
    (hmk : 0 < maxKeep)
    (hnd : (fileKeys fs.activeFiles).Nodup)
    (hdisj : ∀ k ∈ fileKeys fs.activeFiles, k ∉ fileKeys fs.archiveFiles) :
    ((archive_old_snapshots true maxKeep fs).activeFiles.filter
        (fun e => weeklySnapshotName e.1)).length ≤ maxKeep ∧
    ((archive_old_snapshots true maxKeep fs).activeFiles.filter
        (fun e => weeklySnapshotName e.1)).Perm
      ((sortByName (fs.activeFiles.filter (fun e => weeklySnapshotName e.1))).drop
        ((sortByName (fs.activeFiles.filter (fun e => weeklySnapshotName e.1))).length
          - maxKeep)) ∧
    (∀ e ∈ (sortByName (fs.activeFiles.filter (fun e => weeklySnapshotName e.1))).take
        ((sortByName (fs.activeFiles.filter (fun e => weeklySnapshotName e.1))).length
          - maxKeep),
      e ∈ (archive_old_snapshots true maxKeep fs).archiveFiles) ∧
    (∀ e1 ∈ (sortByName (fs.activeFiles.filter (fun e => weeklySnapshotName e.1))).take
        ((sortByName (fs.activeFiles.filter (fun e => weeklySnapshotName e.1))).length
          - maxKeep),
      ∀ e2 ∈ (sortByName (fs.activeFiles.filter (fun e => weeklySnapshotName e.1))).drop
        ((sortByName (fs.activeFiles.filter (fun e => weeklySnapshotName e.1))).length
          - maxKeep),
      e1.1 ≤ e2.1) ∧
    ((archive_old_snapshots true maxKeep fs).activeFiles ++
        (archive_old_snapshots true maxKeep fs).archiveFiles).Perm
      (fs.activeFiles ++ fs.archiveFiles) := by
  set sorted := sortByName (fs.activeFiles.filter (fun e => weeklySnapshotName e.1))
    with hsorteddef
  have hwperm : sorted.Perm (fs.activeFiles.filter (fun e => weeklySnapshotName e.1)) :=
    List.perm_insertionSort _ _
  by_cases hgt : sorted.length > maxKeep
  · have hndw : (fileKeys (fs.activeFiles.filter
        (fun e => weeklySnapshotName e.1))).Nodup :=
      List.Nodup.sublist ((List.filter_sublist _).map Prod.fst) hnd
    have hnds : (fileKeys sorted).Nodup :=
      ((hwperm.map Prod.fst).nodup_iff).mpr hndw
    have hsub_s : ∀ e ∈ sorted, e ∈ fs.activeFiles := fun e he =>
      List.mem_of_mem_filter (hwperm.mem_iff.mp he)
    have hmoved_sub : ∀ e ∈ sorted.take (sorted.length - maxKeep),
        e ∈ fs.activeFiles :=
      fun e he => hsub_s e (List.take_subset _ _ he)
    have hndm : (fileKeys (sorted.take (sorted.length - maxKeep))).Nodup :=
      List.Nodup.sublist ((List.take_sublist _ _).map Prod.fst) hnds
    have hdisjm : ∀ e ∈ sorted.take (sorted.length - maxKeep),
        e.1 ∉ fileKeys fs.archiveFiles :=
      fun e he => hdisj e.1 (mem_fileKeys (hmoved_sub e he))
    have hmaster := foldl_moveFile_spec (sorted.take (sorted.length - maxKeep)) fs
      hmoved_sub hnd hndm hdisjm
    have harch : archive_old_snapshots true maxKeep fs =
        { activeFiles := fs.activeFiles.filter (fun e =>
            !((fileKeys (sorted.take (sorted.length - maxKeep))).contains e.1))
          archiveFiles := fs.archiveFiles ++ sorted.take (sorted.length - maxKeep) } := by
      rw [archive_old_snapshots_enabled, ← hsorteddef, if_pos hgt,
        show pySliceDropLast sorted maxKeep =
            sorted.take (sorted.length - maxKeep) by
          unfold pySliceDropLast
          rw [if_neg (by omega)]]
      exact hmaster
    have hactive_eq : (archive_old_snapshots true maxKeep fs).activeFiles =
        fs.activeFiles.filter (fun e =>
          !((fileKeys (sorted.take (sorted.length - maxKeep))).contains e.1)) := by
      rw [harch]
    have harchive_eq : (archive_old_snapshots true maxKeep fs).archiveFiles =
        fs.archiveFiles ++ sorted.take (sorted.length - maxKeep) := by
      rw [harch]
    have hwfilter : ((archive_old_snapshots true maxKeep fs).activeFiles.filter
        (fun e => weeklySnapshotName e.1)).Perm
        (sorted.drop (sorted.length - maxKeep)) := by
      rw [hactive_eq, List.filter_filter]
      have hcomm : fs.activeFiles.filter (fun a => weeklySnapshotName a.1 &&
          !((fileKeys (sorted.take (sorted.length - maxKeep))).contains a.1)) =
          fs.activeFiles.filter (fun a =>
            !((fileKeys (sorted.take (sorted.length - maxKeep))).contains a.1) &&
            weeklySnapshotName a.1) := by
        apply List.filter_congr
        intro a _
        exact Bool.and_comm _ _
      rw [hcomm, ← List.filter_filter]
      refine List.Perm.trans ((hwperm.symm).filter _) ?_
      have hsplit := filter_not_keys_split (sorted.take (sorted.length - maxKeep))
        (sorted.drop (sorted.length - maxKeep))
        (by rw [List.take_append_drop]; exact hnds)
      rw [List.take_append_drop] at hsplit
      rw [hsplit]
    have hlen : ((archive_old_snapshots true maxKeep fs).activeFiles.filter
        (fun e => weeklySnapshotName e.1)).length ≤ maxKeep := by
      rw [hwfilter.length_eq, List.length_drop]
      omega
    have hmv : ∀ e ∈ sorted.take (sorted.length - maxKeep),
        e ∈ (archive_old_snapshots true maxKeep fs).archiveFiles := by
      intro e he
      rw [harchive_eq]
      exact List.mem_append.mpr (Or.inr he)
    have hsortedness : List.Sorted (fun a b : String × FileContent α => a.1 ≤ b.1)
        sorted := List.sorted_insertionSort _ _
    have hpair : ∀ e1 ∈ sorted.take (sorted.length - maxKeep),
        ∀ e2 ∈ sorted.drop (sorted.length - maxKeep), e1.1 ≤ e2.1 := by
      have hp := hsortedness
      rw [← List.take_append_drop (sorted.length - maxKeep) sorted] at hp
      exact (List.pairwise_append.mp hp).2.2
    have hperm5 : ((archive_old_snapshots true maxKeep fs).activeFiles ++
        (archive_old_snapshots true maxKeep fs).archiveFiles).Perm
        (fs.activeFiles ++ fs.archiveFiles) := by
      rw [hactive_eq, harchive_eq]
      have hfp : (fs.activeFiles.filter (fun e =>
          !((fileKeys (sorted.take (sorted.length - maxKeep))).contains e.1)) ++
          fs.activeFiles.filter (fun e =>
            (fileKeys (sorted.take (sorted.length - maxKeep))).contains e.1)).Perm
          fs.activeFiles := by
        have h := List.filter_append_perm (fun e : String × FileContent α =>
          !((fileKeys (sorted.take (sorted.length - maxKeep))).contains e.1))
          fs.activeFiles
        have hnn : fs.activeFiles.filter (fun a =>
            !(!((fileKeys (sorted.take (sorted.length - maxKeep))).contains a.1))) =
            fs.activeFiles.filter (fun a =>
              (fileKeys (sorted.take (sorted.length - maxKeep))).contains a.1) := by
          apply List.filter_congr
          intro a _
          exact Bool.not_not _
        rw [hnn] at h
        exact h
      have hpm : (fs.activeFiles.filter (fun e =>
          (fileKeys (sorted.take (sorted.length - maxKeep))).contains e.1)).Perm
          (sorted.take (sorted.length - maxKeep)) :=
        filter_contains_keys_perm fs.activeFiles _ hnd hmoved_sub hndm
      refine List.Perm.trans
        (List.Perm.append_left _ List.perm_append_comm) ?_
      refine List.Perm.trans
        (List.Perm.append_left _ (List.Perm.append_right _ hpm.symm)) ?_
      rw [← List.append_assoc]
      exact List.Perm.append_right _ hfp
    exact ⟨hlen, hwfilter, hmv, hpair, hperm5⟩
  · have heq : archive_old_snapshots true maxKeep fs = fs := by
      rw [archive_old_snapshots_enabled, ← hsorteddef, if_neg hgt]
    have hn0 : sorted.length - maxKeep = 0 := by omega
    rw [heq, hn0]
    simp only [List.drop_zero, List.take_zero]
    refine ⟨?_, hwperm.symm, ?_, ?_, List.Perm.refl _⟩
    · have h1 := hwperm.length_eq
      omega
    · intro e he
      exact absurd he (List.not_mem_nil e)
    · intro e1 he1
      exact absurd he1 (List.not_mem_nil e1)

/-- Witness for C4 at a concrete input: two weekly snapshot files and a
retention cap of one; after the run at most one weekly file remains and
the older file sits in the archive. -/
theorem retention_invariant_witness :
    (0 < 1 ∧
      (fileKeys (FS.mk [("confluence_data_2024-W01.csv", ([] : FileContent Nat)),
        ("confluence_data_2024-W02.csv", [])] []).activeFiles).Nodup ∧
      (∀ k ∈ fileKeys (FS.mk [("confluence_data_2024-W01.csv", ([] : FileContent Nat)),
          ("confluence_data_2024-W02.csv", [])] []).activeFiles,
        k ∉ fileKeys (FS.mk [("confluence_data_2024-W01.csv", ([] : FileContent Nat)),
          ("confluence_data_2024-W02.csv", [])] []).archiveFiles)) ∧
    ((archive_old_snapshots true 1
        (FS.mk [("confluence_data_2024-W01.csv", ([] : FileContent Nat)),
          ("confluence_data_2024-W02.csv", [])] [])).activeFiles.filter
        (fun e => weeklySnapshotName e.1)).length ≤ 1 :=
  ⟨⟨by decide, by decide, by decide⟩,
    (retention_invariant 1
      (FS.mk [("confluence_data_2024-W01.csv", ([] : FileContent Nat)),
        ("confluence_data_2024-W02.csv", [])] [])
      (by decide) (by decide) (by decide)).1⟩

/-- A concrete raw item with every required field present and every
optional field missing (shared concrete input for witnesses and
counterexamples). -/
def sampleHistObj : HistoryObj :=
  { createdDate := some "2024-01-01T00:00:00Z", createdBy := none }

def sampleVerObj : VersionObj :=
  { whenDate := some "2024-01-02T00:00:00Z", byUser := none, number := some 1 }

def samplePageC1 : Page :=
  { id := some "123", title := some "Page", space_key := some "SPACE1"
    history := some sampleHistObj, version := some sampleVerObj
    ancestors := none, metadata := none }

/-! ### Totality of normalization (claim C1)

The scans of lines 314-336 read `param["id"]` by raw subscript, so the
extraction can only complete when every scanned parameter entry carries
an `id` key; the following predicates state that. -/

/-- Every parameter entry of the list carries the `id` key. -/
def paramListIdsOk (ps : List WfParam) : Bool := ps.all (fun p => p.id.isSome)

/-- Every parameter entry the transition fallback may scan carries `id`. -/
def transitionsIdsOk (t : TransitionsObj) : Bool :=
  (match t.submit with
    | some tr =>
      match tr.parameters with
      | some ps => paramListIdsOk ps
      | none => true
    | none => true) &&
  (match t.select with
    | some trs => trs.all (fun tr =>
        match tr.parameters with
        | some ps => paramListIdsOk ps
        | none => true)
    | none => true)

/-- Every parameter entry the extraction will scan carries `id`. -/
def wfIdsOk (workflow_data : Option WorkflowData)
    (parameters_data : Option ParametersData) : Bool :=
  match workflow_data with
  | none => true
  | some wd =>
    match parameters_data with
    | some pd =>
      match pd.workflowParameters with
      | some ps => paramListIdsOk ps
      | none => transitionsIdsOk (wfTransitions wd)
    | none => transitionsIdsOk (wfTransitions wd)

theorem scanParamsOverwrite_isSome (ps : List WfParam)
    (h : paramListIdsOk ps = true) :
    ∀ o r, ∃ pr, scanParamsOverwrite ps o r = some pr := by
  induction ps with
  | nil => exact fun o r => ⟨(o, r), rfl⟩
  | cons p rest ih =>
    rw [paramListIdsOk, List.all_cons, Bool.and_eq_true] at h
    intro o r
    cases hid : p.id with
    | none => rw [hid] at h; simp at h
    | some pid =>
      simp only [scanParamsOverwrite, hid]
      by_cases h1 : pid = OWNER_PARAM_ID
      · rw [if_pos h1]; exact ih h.2 _ _
      · rw [if_neg h1]
        by_cases h2 : pid = RELEVANCE_PARAM_ID
        · rw [if_pos h2]; exact ih h.2 _ _
        · rw [if_neg h2]; exact ih h.2 _ _

theorem scanParamsGuarded_isSome (ps : List WfParam)
    (h : paramListIdsOk ps = true) :
    ∀ o r, ∃ pr, scanParamsGuarded ps o r = some pr := by
  induction ps with
  | nil => exact fun o r => ⟨(o, r), rfl⟩
  | cons p rest ih =>
    rw [paramListIdsOk, List.all_cons, Bool.and_eq_true] at h
    intro o r
    cases hid : p.id with
    | none => rw [hid] at h; simp at h
    | some pid =>
      simp only [scanParamsGuarded, hid]
      by_cases h1 : pid = OWNER_PARAM_ID ∧ o = ""
      · rw [if_pos h1]; exact ih h.2 _ _
      · rw [if_neg h1]
        by_cases h2 : pid = RELEVANCE_PARAM_ID ∧ r = ""
        · rw [if_pos h2]; exact ih h.2 _ _
        · rw [if_neg h2]; exact ih h.2 _ _

theorem scanSelectTransitions_isSome (trs : List Transition)
    (h : trs.all (fun tr => match tr.parameters with
      | some ps => paramListIdsOk ps
      | none => true) = true) :
    ∀ o r, ∃ pr, scanSelectTransitions trs o r = some pr := by
  induction trs with
  | nil => exact fun o r => ⟨(o, r), rfl⟩
  | cons t rest ih =>
    rw [List.all_cons, Bool.and_eq_true] at h
    intro o r
    cases hp : t.parameters with
    | none =>
      simp only [scanSelectTransitions, hp]
      exact ih h.2 o r
    | some ps =>
      have hps : paramListIdsOk ps = true := by
        have h1 := h.1
        rw [hp] at h1
        exact h1
      obtain ⟨pr, hpr⟩ := scanParamsGuarded_isSome ps hps o r
      obtain ⟨o2, r2⟩ := pr
      simp only [scanSelectTransitions, hp, hpr]
      exact ih h.2 o2 r2

theorem transitionFallback_isSome (wd : WorkflowData)
    (h : transitionsIdsOk (wfTransitions wd) = true) :
    ∃ pr, transitionFallback wd = some pr := by
  rw [transitionsIdsOk, Bool.and_eq_true] at h
  obtain ⟨hsubmit, hselect⟩ := h
  have hsel : ∀ o r, o = "" → ∃ pr,
      (match (wfTransitions wd).select with
        | some trs => scanSelectTransitions trs o r
        | none => (pure (o, r) : Option (String × String))) = some pr := by
    intro o r _
    cases hs : (wfTransitions wd).select with
    | none => exact ⟨(o, r), rfl⟩
    | some trs =>
      rw [hs] at hselect
      exact scanSelectTransitions_isSome trs hselect o r
  unfold transitionFallback
  cases hsub : (wfTransitions wd).submit with
  | none =>
    simp only [hsub]
    obtain ⟨pr, hpr⟩ := hsel "" "" rfl
    simp only [Option.pure_def, Option.some_bind, if_pos rfl]
    exact ⟨pr, hpr⟩
  | some tr =>
    rw [hsub] at hsubmit
    have hsubmit2 : (match tr.parameters with
        | some ps => paramListIdsOk ps
        | none => true) = true := hsubmit
    cases hparams : tr.parameters with
    | none =>
      simp only [hsub, hparams]
      obtain ⟨pr, hpr⟩ := hsel "" "" rfl
      simp only [Option.pure_def, Option.bind_eq_bind, Option.some_bind, if_pos rfl]
      exact ⟨pr, hpr⟩
    | some ps =>
      rw [hparams] at hsubmit2
      obtain ⟨⟨o, r⟩, hor⟩ := scanParamsOverwrite_isSome ps hsubmit2 "" ""
      simp only [hsub, hparams, hor, Option.bind_eq_bind, Option.some_bind]
      by_cases ho : o = ""
      · obtain ⟨pr, hpr⟩ := hsel o r ho
        rw [if_pos ho]
        exact ⟨pr, hpr⟩
      · rw [if_neg ho]
        exact ⟨(o, r), rfl⟩

theorem workflowParamValues_isSome (wd : WorkflowData)
    (pd : Option ParametersData) (h : wfIdsOk (some wd) pd = true) :
    ∃ pr, workflowParamValues wd pd = some pr := by
  unfold workflowParamValues
  unfold wfIdsOk at h
  cases pd with
  | none => exact transitionFallback_isSome wd h
  | some p =>
    have h2 : (match p.workflowParameters with
        | some ps => paramListIdsOk ps
        | none => transitionsIdsOk (wfTransitions wd)) = true := h
    cases hwp : p.workflowParameters with
    | none =>
      rw [hwp] at h2
      simp only [hwp]
      exact transitionFallback_isSome wd h2
    | some ps =>
      rw [hwp] at h2
      simp only [hwp]
      exact scanParamsOverwrite_isSome ps h2 "" ""

/-- **C1 (amended).** For every raw item whose required keys are present
(`title`, `id`, `space_key`, `history.createdDate` and `version.when`
with well-formed timestamps) and whose scanned workflow parameter
entries all carry an `id` key, the normalization step returns exactly
one record for every combination of the optional enrichment data, and
every missing optional input degrades to an empty/zero default.  (The
claim as frozen also promised this for items with those required keys
missing; the counterexample shows a missing `title` raises instead.) -/
theorem extract_total_with_required_fields (page : Page)
    (workflow_data : Option WorkflowData) (parameters_data : Option ParametersData)
    (child_count : Nat) (content_info : Option ContentInfo)
    (user_activity : Option UserActivity) (nowDate nowTime : String)
    (ti pid sk cd cdd wh whd : String) (hist : HistoryObj) (ver : VersionObj)
    (hti : page.title = some ti) (hid : page.id = some pid)
    (hsk : page.space_key = some sk)
    (hh : page.history = some hist) (hcd : hist.createdDate = some cd)
    (hcd2 : pyIsoToDate cd = some cdd)
    (hv : page.version = some ver) (hwh : ver.whenDate = some wh)
    (hwh2 : pyIsoToDate wh = some whd)
    (hids : wfIdsOk workflow_data parameters_data = true) :
    (∃ rec, extract_required_data page workflow_data parameters_data child_count
        content_info user_activity nowDate nowTime = some rec) ∧
    ∀ rec, extract_required_data page workflow_data parameters_data child_count
        content_info user_activity nowDate nowTime = some rec →
      (content_info = none → rec.word_count = 0 ∧ rec.char_count = 0 ∧
        rec.attachment_count = 0 ∧ rec.image_count = 0 ∧ rec.table_count = 0) ∧
      (user_activity = none → rec.unique_contributors = 0 ∧ rec.edit_count = 0 ∧
        rec.last_editor = "") ∧
      (workflow_data = none → rec.workflow_name = "" ∧ rec.owner_value = "" ∧
        rec.project_relevance = "") ∧
      (page.metadata = none → rec.labels = "") ∧
      (hist.createdBy = none → rec.creator_name = "") ∧
      (page.ancestors = none → rec.page_depth = 0) := by
  cases workflow_data with
  | none =>
    constructor
    · apply Exists.intro
      simp only [extract_required_data, hti, hid, hh, hcd, hcd2, hv, hwh, hwh2, hsk,
        Option.bind_eq_bind, Option.some_bind, Option.pure_def]
      rfl
    · intro rec hrec
      simp only [extract_required_data, hti, hid, hh, hcd, hcd2, hv, hwh, hwh2, hsk,
        Option.bind_eq_bind, Option.some_bind, Option.pure_def,
        Option.some.injEq] at hrec
      subst hrec
      refine ⟨?_, ?_, ?_, ?_, ?_, ?_⟩
      · intro h0
        subst h0
        simp [defaultContentInfo]
      · intro h0
        subst h0
        simp [defaultUserActivity]
      · intro _
        exact ⟨rfl, rfl, rfl⟩
      · intro h0
        simp [h0, String.intercalate]
      · intro h0
        simp [h0]
      · intro h0
        simp [h0]
  | some wd =>
    obtain ⟨⟨o, r⟩, hor⟩ := workflowParamValues_isSome wd parameters_data hids
    constructor
    · apply Exists.intro
      simp only [extract_required_data, hti, hid, hh, hcd, hcd2, hv, hwh, hwh2, hsk,
        hor, Option.bind_eq_bind, Option.some_bind, Option.pure_def]
      rfl
    · intro rec hrec
      simp only [extract_required_data, hti, hid, hh, hcd, hcd2, hv, hwh, hwh2, hsk,
        hor, Option.bind_eq_bind, Option.some_bind, Option.pure_def,
        Option.some.injEq] at hrec
      subst hrec
      refine ⟨?_, ?_, ?_, ?_, ?_, ?_⟩
      · intro h0
        subst h0
        simp [defaultContentInfo]
      · intro h0
        subst h0
        simp [defaultUserActivity]
      · intro h0
        exact Option.noConfusion h0
      · intro h0
        simp [h0, String.intercalate]
      · intro h0
        simp [h0]
      · intro h0
        simp [h0]

/-- Counterexample to C1 as stated: a raw item whose `title` key is
missing (all other data present and well-formed) makes
`extract_required_data` raise a `KeyError` at line 237 — modelled as
`none` — rather than returning a record with an empty default. -/
theorem extract_raises_on_missing_title :
    extract_required_data
      { id := some "123", title := none, space_key := some "SPACE1"
        history := some { createdDate := some "2024-01-01T00:00:00Z", createdBy := none }
        version := some { whenDate := some "2024-01-02T00:00:00Z", byUser := none
                          number := some 1 }
        ancestors := none, metadata := none }
      none none 0 none none "2024-01-03" "00:00:00" = none := rfl

/-- Witness for the amended C1: a minimal item with all required fields
present and every optional datum missing yields exactly one record with
the empty/zero defaults. -/
theorem extract_total_with_required_fields_witness :
    ((samplePageC1 : Page).title = some "Page" ∧
      (pyIsoToDate "2024-01-01T00:00:00Z").isSome ∧
      (pyIsoToDate "2024-01-02T00:00:00Z").isSome ∧
      wfIdsOk none none = true) ∧
    (∃ rec, extract_required_data samplePageC1 none none 0 none none
        "2024-01-03" "00:00:00" = some rec) ∧
    ∀ rec, extract_required_data samplePageC1 none none 0 none none
        "2024-01-03" "00:00:00" = some rec →
      ((none : Option ContentInfo) = none → rec.word_count = 0 ∧ rec.char_count = 0 ∧
        rec.attachment_count = 0 ∧ rec.image_count = 0 ∧ rec.table_count = 0) ∧
      ((none : Option UserActivity) = none → rec.unique_contributors = 0 ∧
        rec.edit_count = 0 ∧ rec.last_editor = "") ∧
      ((none : Option WorkflowData) = none → rec.workflow_name = "" ∧
        rec.owner_value = "" ∧ rec.project_relevance = "") ∧
      (samplePageC1.metadata = none → rec.labels = "") ∧
      ((sampleHistObj : HistoryObj).createdBy = none → rec.creator_name = "") ∧
      (samplePageC1.ancestors = none → rec.page_depth = 0) := by
  refine ⟨⟨rfl, by decide, by decide, rfl⟩, ?_⟩
  exact extract_total_with_required_fields samplePageC1 none none 0 none none
    "2024-01-03" "00:00:00" "Page" "123" "SPACE1" "2024-01-01T00:00:00Z"
    "2024-01-01" "2024-01-02T00:00:00Z" "2024-01-02" sampleHistObj sampleVerObj
    rfl rfl rfl rfl rfl (by decide) rfl rfl (by decide) rfl

/-! ### The select-transition fallback (claim C2) -/

/-- The value the guarded scan settles on for one parameter identifier:
the first parameter entry with that identifier carrying a non-empty
value (an empty value assigns the empty string again, which Python
truthiness treats as still missing). -/
def firstNonemptyValue (pid0 : String) : List WfParam → String
  | [] => ""
  | p :: rest =>
    if p.id = some pid0 ∧ paramValue p ≠ "" then paramValue p
    else firstNonemptyValue pid0 rest

/-- The concatenation of the parameter lists of the `select` transitions
(entries without a `parameters` key contribute nothing). -/
def selectParamLists : List Transition → List WfParam
  | [] => []
  | t :: rest => t.parameters.getD [] ++ selectParamLists rest

/-- The scan of the `submit` transition's parameter list
(lines 323-328), starting from the empty accumulators. -/
def submitScan (wd : WorkflowData) : Option (String × String) :=
  match (wfTransitions wd).submit with
  | some tr =>
    match tr.parameters with
    | some ps => scanParamsOverwrite ps "" ""
    | none => some ("", "")
  | none => some ("", "")

theorem firstNonemptyValue_cons (pid0 : String) (p : WfParam)
    (rest : List WfParam) :
    firstNonemptyValue pid0 (p :: rest) =
      if p.id = some pid0 ∧ paramValue p ≠ "" then paramValue p
      else firstNonemptyValue pid0 rest := rfl

/-- Closed form of the guarded scan: each identifier independently keeps
an already non-empty accumulator and otherwise takes the first non-empty
value among its parameters. -/
theorem scanParamsGuarded_spec (ps : List WfParam)
    (h : paramListIdsOk ps = true) :
    ∀ o r, scanParamsGuarded ps o r =
      some (if o = "" then firstNonemptyValue OWNER_PARAM_ID ps else o,
            if r = "" then firstNonemptyValue RELEVANCE_PARAM_ID ps else r) := by
  induction ps with
  | nil =>
    intro o r
    by_cases ho : o = "" <;> by_cases hr : r = "" <;>
      simp [scanParamsGuarded, firstNonemptyValue, ho, hr]
  | cons p rest ih =>
    rw [paramListIdsOk, List.all_cons, Bool.and_eq_true] at h
    have hrest := ih h.2
    intro o r
    cases hid : p.id with
    | none => rw [hid] at h; simp at h
    | some pid =>
      simp only [scanParamsGuarded, hid]
      by_cases h1 : pid = OWNER_PARAM_ID ∧ o = ""
      · obtain ⟨hpid, ho⟩ := h1
        subst hpid
        subst ho
        rw [if_pos ⟨rfl, rfl⟩, hrest, if_pos rfl]
        have howner : firstNonemptyValue OWNER_PARAM_ID (p :: rest) =
            if paramValue p = "" then firstNonemptyValue OWNER_PARAM_ID rest
            else paramValue p := by
          rw [firstNonemptyValue_cons]
          by_cases hpv : paramValue p = ""
          · rw [if_neg (fun hc => hc.2 hpv), if_pos hpv]
          · rw [if_pos ⟨hid, hpv⟩, if_neg hpv]
        have hrel : firstNonemptyValue RELEVANCE_PARAM_ID (p :: rest) =
            firstNonemptyValue RELEVANCE_PARAM_ID rest := by
          rw [firstNonemptyValue_cons, if_neg]
          intro hc
          rw [hid] at hc
          exact (by decide : OWNER_PARAM_ID ≠ RELEVANCE_PARAM_ID) (by injection hc.1)
        rw [howner, hrel]
      · rw [if_neg h1]
        by_cases h2 : pid = RELEVANCE_PARAM_ID ∧ r = ""
        · obtain ⟨hpid, hr⟩ := h2
          subst hpid
          subst hr
          rw [if_pos ⟨rfl, rfl⟩, hrest, if_pos rfl]
          have howner : firstNonemptyValue OWNER_PARAM_ID (p :: rest) =
              firstNonemptyValue OWNER_PARAM_ID rest := by
            rw [firstNonemptyValue_cons, if_neg]
            intro hc
            rw [hid] at hc
            exact (by decide : OWNER_PARAM_ID ≠ RELEVANCE_PARAM_ID)
              (by injection hc.1 with h3; rw [h3])
          have hrel : firstNonemptyValue RELEVANCE_PARAM_ID (p :: rest) =
              if paramValue p = "" then firstNonemptyValue RELEVANCE_PARAM_ID rest
              else paramValue p := by
            rw [firstNonemptyValue_cons]
            by_cases hpv : paramValue p = ""
            · rw [if_neg (fun hc => hc.2 hpv), if_pos hpv]
            · rw [if_pos ⟨hid, hpv⟩, if_neg hpv]
          rw [howner, hrel]
        · rw [if_neg h2, hrest]
          have hfo : (if o = "" then firstNonemptyValue OWNER_PARAM_ID (p :: rest)
              else o) = if o = "" then firstNonemptyValue OWNER_PARAM_ID rest else o := by
            by_cases ho : o = ""
            · rw [if_pos ho, if_pos ho, firstNonemptyValue_cons, if_neg]
              intro hc
              rw [hid] at hc
              exact h1 ⟨by injection hc.1, ho⟩
            · rw [if_neg ho, if_neg ho]
          have hfr : (if r = "" then firstNonemptyValue RELEVANCE_PARAM_ID (p :: rest)
              else r) = if r = "" then firstNonemptyValue RELEVANCE_PARAM_ID rest else r := by
            by_cases hr : r = ""
            · rw [if_pos hr, if_pos hr, firstNonemptyValue_cons, if_neg]
              intro hc
              rw [hid] at hc
              exact h2 ⟨by injection hc.1, hr⟩
            · rw [if_neg hr, if_neg hr]
          rw [hfo, hfr]

/-- The guarded scan threads its accumulators across concatenation. -/
theorem scanParamsGuarded_append (a b : List WfParam) :
    ∀ o r, scanParamsGuarded (a ++ b) o r =
      (scanParamsGuarded a o r).bind (fun pr => scanParamsGuarded b pr.1 pr.2) := by
  induction a with
  | nil => intro o r; rfl
  | cons p rest ih =>
    intro o r
    cases hid : p.id with
    | none =>
      simp only [List.cons_append, scanParamsGuarded, hid, Option.none_bind]
    | some pid =>
      simp only [List.cons_append, scanParamsGuarded, hid]
      by_cases h1 : pid = OWNER_PARAM_ID ∧ o = ""
      · rw [if_pos h1, if_pos h1]
        exact ih _ _
      · rw [if_neg h1, if_neg h1]
        by_cases h2 : pid = RELEVANCE_PARAM_ID ∧ r = ""
        · rw [if_pos h2, if_pos h2]
          exact ih _ _
        · rw [if_neg h2, if_neg h2]
          exact ih _ _

/-- The loop over the `select` transitions equals one guarded scan over
the concatenation of their parameter lists. -/
theorem scanSelectTransitions_eq_guarded (trs : List Transition) :
    ∀ o r, scanSelectTransitions trs o r =
      scanParamsGuarded (selectParamLists trs) o r := by
  induction trs with
  | nil => intro o r; rfl
  | cons t rest ih =>
    intro o r
    cases hp : t.parameters with
    | none =>
      simp only [scanSelectTransitions, hp, selectParamLists, Option.getD_none,
        List.nil_append]
      exact ih o r
    | some ps =>
      simp only [scanSelectTransitions, hp, selectParamLists, Option.getD_some]
      rw [scanParamsGuarded_append]
      cases hg : scanParamsGuarded ps o r with
      | none => rfl
      | some pr =>
        obtain ⟨o2, r2⟩ := pr
        simp only [Option.some_bind]
        exact ih o2 r2

theorem paramListIdsOk_append (a b : List WfParam) :
    paramListIdsOk (a ++ b) = (paramListIdsOk a && paramListIdsOk b) := by
  simp [paramListIdsOk, List.all_append]

theorem selectParamLists_idsOk (trs : List Transition)
    (h : trs.all (fun tr => match tr.parameters with
      | some ps => paramListIdsOk ps
      | none => true) = true) :
    paramListIdsOk (selectParamLists trs) = true := by
  induction trs with
  | nil => rfl
  | cons t rest ih =>
    rw [List.all_cons, Bool.and_eq_true] at h
    rw [selectParamLists, paramListIdsOk_append, Bool.and_eq_true]
    refine ⟨?_, ih h.2⟩
    cases hp : t.parameters with
    | none => rfl
    | some ps =>
      have h1 := h.1
      rw [hp] at h1
      exact h1

/-- The behavior claim C2 describes, stated from the claim's words (used
only to exhibit the counterexample): after the submit scan, the select
list is scanned whenever either configured identifier's value was not
yet found — for each of the two identifiers independently. -/
def transitionFallbackClaimed (wd : WorkflowData) : Option (String × String) := do
  let t := wfTransitions wd
  let (o, r) ←
    match t.submit with
    | some tr =>
      match tr.parameters with
      | some ps => scanParamsOverwrite ps "" ""
      | none => pure ("", "")
    | none => pure ("", "")
  if o = "" ∨ r = "" then
    match t.select with
    | some trs => scanSelectTransitions trs o r
    | none => pure (o, r)
  else
    pure (o, r)

/-- A workflow status document whose `submit` transition carries the
owner value `"A"` and whose `select` transitions carry the relevance
value `"R"`. -/
def wdSubmitOwnerSelectRelevance : WorkflowData :=
  ⟨some "wf",
    some ⟨some ⟨some ⟨some [⟨some OWNER_PARAM_ID, some "A"⟩]⟩,
      some [⟨some [⟨some RELEVANCE_PARAM_ID, some "R"⟩]⟩]⟩⟩⟩

/-- Counterexample to C2 as stated: with the owner found in `submit`
and the relevance value present only in `select`, the code leaves the
relevance empty — the `select` list is guarded solely on the owner value
(line 329), so it is never scanned for the still-missing relevance —
while the claim's independent-scan reading would recover `"R"`. -/
theorem select_scan_not_independent :
    transitionFallback wdSubmitOwnerSelectRelevance = some ("A", "") ∧
    transitionFallbackClaimed wdSubmitOwnerSelectRelevance = some ("A", "R") ∧
    transitionFallback wdSubmitOwnerSelectRelevance ≠
      transitionFallbackClaimed wdSubmitOwnerSelectRelevance ∧
    (extract_required_data samplePageC1 (some wdSubmitOwnerSelectRelevance) none 0
        none none "2024-01-03" "00:00:00").map
      (fun rec => (rec.owner_value, rec.project_relevance)) = some ("A", "") := by
  refine ⟨rfl, rfl, ?_, rfl⟩
  intro hc
  rw [show transitionFallback wdSubmitOwnerSelectRelevance = some ("A", "") from rfl,
    show transitionFallbackClaimed wdSubmitOwnerSelectRelevance = some ("A", "R")
      from rfl] at hc
  simp at hc

/-- **C2 (amended).** After the submit scan, the `select` transition
list is scanned only when the owner value is still empty; when it is
scanned, each of the two configured identifiers independently takes the
first parameter with that identifier carrying a non-empty value, and an
already-found (non-empty) value is never overwritten. -/
theorem select_fallback_amended (wd : WorkflowData)
    (hids : transitionsIdsOk (wfTransitions wd) = true) :
    ∃ o r, submitScan wd = some (o, r) ∧
      (o ≠ "" → transitionFallback wd = some (o, r)) ∧
      (o = "" → transitionFallback wd =
        some (firstNonemptyValue OWNER_PARAM_ID
            (match (wfTransitions wd).select with
              | some trs => selectParamLists trs
              | none => []),
          if r = "" then
            firstNonemptyValue RELEVANCE_PARAM_ID
              (match (wfTransitions wd).select with
                | some trs => selectParamLists trs
                | none => [])
          else r)) := by
  rw [transitionsIdsOk, Bool.and_eq_true] at hids
  obtain ⟨hsubmit, hselect⟩ := hids
  obtain ⟨⟨o, r⟩, hor⟩ : ∃ pr, submitScan wd = some pr := by
    unfold submitScan
    cases hsub : (wfTransitions wd).submit with
    | none => exact ⟨("", ""), rfl⟩
    | some tr =>
      show ∃ pr, (match tr.parameters with
        | some ps => scanParamsOverwrite ps "" ""
        | none => some ("", "")) = some pr
      rw [hsub] at hsubmit
      have hsubmit2 : (match tr.parameters with
          | some ps => paramListIdsOk ps
          | none => true) = true := hsubmit
      cases hparams : tr.parameters with
      | none => exact ⟨("", ""), rfl⟩
      | some ps =>
        rw [hparams] at hsubmit2
        exact scanParamsOverwrite_isSome ps hsubmit2 "" ""
  have hfallback : transitionFallback wd =
      (if o = "" then
        match (wfTransitions wd).select with
        | some trs => scanSelectTransitions trs o r
        | none => some (o, r)
      else some (o, r)) := by
    unfold transitionFallback
    unfold submitScan at hor
    cases hsub : (wfTransitions wd).submit with
    | none =>
      rw [hsub] at hor
      have hor2 := Option.some.inj hor
      obtain ⟨rfl, rfl⟩ : ("" : String) = o ∧ ("" : String) = r :=
        ⟨congrArg Prod.fst hor2, congrArg Prod.snd hor2⟩
      simp only [hsub, Option.pure_def, Option.bind_eq_bind, Option.some_bind]
    | some tr =>
      rw [hsub] at hor
      have horm : (match tr.parameters with
          | some ps => scanParamsOverwrite ps "" ""
          | none => some ("", "")) = some (o, r) := hor
      cases hparams : tr.parameters with
      | none =>
        rw [hparams] at horm
        have hor2 := Option.some.inj horm
        obtain ⟨rfl, rfl⟩ : ("" : String) = o ∧ ("" : String) = r :=
          ⟨congrArg Prod.fst hor2, congrArg Prod.snd hor2⟩
        simp only [hsub, hparams, Option.pure_def, Option.bind_eq_bind,
          Option.some_bind]
      | some ps =>
        rw [hparams] at horm
        have horm2 : scanParamsOverwrite ps "" "" = some (o, r) := horm
        simp only [hsub, hparams, horm2, Option.pure_def, Option.bind_eq_bind,
          Option.some_bind]
  refine ⟨o, r, hor, ?_, ?_⟩
  · intro ho
    rw [hfallback, if_neg ho]
  · intro ho
    rw [hfallback, if_pos ho]
    cases hsel : (wfTransitions wd).select with
    | none =>
      subst ho
      by_cases hr : r = "" <;> simp [firstNonemptyValue, hr]
    | some trs =>
      rw [hsel] at hselect
      show scanSelectTransitions trs o r = _
      rw [scanSelectTransitions_eq_guarded,
        scanParamsGuarded_spec _ (selectParamLists_idsOk trs hselect), if_pos ho]

/-- A workflow status document whose parameters live only on the
`select` transitions (submit absent). -/
def wdSelectOnly : WorkflowData :=
  ⟨some "wf",
    some ⟨some ⟨none,
      some [⟨some [⟨some OWNER_PARAM_ID, some "O2"⟩,
                   ⟨some RELEVANCE_PARAM_ID, some "R2"⟩]⟩]⟩⟩⟩

/-- Witness for the amended C2: a workflow whose submit scan leaves the
owner empty; the select list supplies both values. -/
theorem select_fallback_amended_witness :
    transitionsIdsOk (wfTransitions wdSelectOnly) = true ∧
    ∃ o r, submitScan wdSelectOnly = some (o, r) ∧
      (o ≠ "" → transitionFallback wdSelectOnly = some (o, r)) ∧
      (o = "" → transitionFallback wdSelectOnly =
        some (firstNonemptyValue OWNER_PARAM_ID
            (match (wfTransitions wdSelectOnly).select with
              | some trs => selectParamLists trs
              | none => []),
          if r = "" then
            firstNonemptyValue RELEVANCE_PARAM_ID
              (match (wfTransitions wdSelectOnly).select with
                | some trs => selectParamLists trs
                | none => [])
          else r)) :=
  ⟨by decide, select_fallback_amended wdSelectOnly (by decide)⟩

/-! ### Flat parameters document takes precedence (claims C6 and C8) -/

/-- **C6.** When a flat parameters document with the
`workflowParameters` list exists, the two configured parameter values
are read exclusively from it: the extraction result is independent of
the status document's transition definitions (even when they carry
disagreeing values), and a successful extraction's owner/relevance pair
is exactly the flat scan's result. -/
theorem flat_parameters_exclusive (page : Page) (wname : Option String)
    (st st2 : Option WfStateObj) (pd : ParametersData) (ps : List WfParam)
    (child_count : Nat) (ci : Option ContentInfo) (ua : Option UserActivity)
    (d t : String) (hps : pd.workflowParameters = some ps) :
    extract_required_data page (some ⟨wname, st⟩) (some pd) child_count ci ua d t =
      extract_required_data page (some ⟨wname, st2⟩) (some pd) child_count ci ua d t ∧
    ∀ rec, extract_required_data page (some ⟨wname, st⟩) (some pd) child_count ci ua d t
        = some rec →
      scanParamsOverwrite ps "" "" = some (rec.owner_value, rec.project_relevance) := by
  have hW : ∀ st3 : Option WfStateObj,
      workflowParamValues ⟨wname, st3⟩ (some pd) = scanParamsOverwrite ps "" "" := by
    intro st3
    simp [workflowParamValues, hps]
  constructor
  · simp only [extract_required_data, hW]
  · intro rec hrec
    simp only [extract_required_data, hW, Option.bind_eq_bind, Option.bind_eq_some,
      Option.pure_def, Option.some.injEq] at hrec
    obtain ⟨ti, hti, pid, hid, hist, hh, cd, hcd, cdd, hcd2, ver, hv, wh, hwh,
      whd, hwh2, sk, hsk, ⟨o, r⟩, hor, hrec2⟩ := hrec
    rw [hor, ← hrec2]

/-- The workflow state of the C6 witness: a `submit` transition carrying
owner `"Bob"`. -/
def stBobSubmit : Option WfStateObj :=
  some ⟨some ⟨some ⟨some [⟨some OWNER_PARAM_ID, some "Bob"⟩]⟩, none⟩⟩

/-- The flat parameters document of the C6 witness: owner `"Alice"`. -/
def pdAlice : ParametersData :=
  ⟨some [⟨some OWNER_PARAM_ID, some "Alice"⟩]⟩

/-- Witness for C6 (the flat-versus-transition disagreement of the
claim): flat document owner `"Alice"`, submit-transition owner `"Bob"`;
the result's owner is `"Alice"`, read exclusively from the flat list. -/
theorem flat_parameters_exclusive_witness :
    pdAlice.workflowParameters = some [⟨some OWNER_PARAM_ID, some "Alice"⟩] ∧
    (∀ rec, extract_required_data samplePageC1 (some ⟨some "wf", stBobSubmit⟩)
        (some pdAlice) 0 none none "2024-01-03" "00:00:00" = some rec →
      scanParamsOverwrite [⟨some OWNER_PARAM_ID, some "Alice"⟩] "" ""
        = some (rec.owner_value, rec.project_relevance)) ∧
    (extract_required_data samplePageC1 (some ⟨some "wf", stBobSubmit⟩)
        (some pdAlice) 0 none none "2024-01-03" "00:00:00").map
      (fun rec => rec.owner_value) = some "Alice" := by
  refine ⟨rfl, ?_, rfl⟩
  exact (flat_parameters_exclusive samplePageC1 (some "wf") stBobSubmit none
    pdAlice [⟨some OWNER_PARAM_ID, some "Alice"⟩]
    0 none none "2024-01-03" "00:00:00" rfl).2

/-- **C8.** When the parameters lookup returned a document lacking the
`workflowParameters` key, the extraction behaves exactly as if no flat
document had been obtained: the transition-based fallback is used. -/
theorem missing_workflowParameters_key_falls_back (page : Page)
    (wd : WorkflowData) (pd : ParametersData) (child_count : Nat)
    (ci : Option ContentInfo) (ua : Option UserActivity) (d t : String)
    (hnone : pd.workflowParameters = none) :
    extract_required_data page (some wd) (some pd) child_count ci ua d t =
      extract_required_data page (some wd) none child_count ci ua d t := by
  have hW : workflowParamValues wd (some pd) = workflowParamValues wd none := by
    simp [workflowParamValues, hnone]
  simp only [extract_required_data, hW]

/-- Witness for C8: a parameters document without the key, next to a
workflow whose submit transition carries the owner; the fallback runs
and recovers the transition value. -/
theorem missing_workflowParameters_key_falls_back_witness :
    (ParametersData.mk none).workflowParameters = none ∧
    extract_required_data samplePageC1 (some wdSubmitOwnerSelectRelevance)
        (some (ParametersData.mk none)) 0 none none "2024-01-03" "00:00:00" =
      extract_required_data samplePageC1 (some wdSubmitOwnerSelectRelevance)
        none 0 none none "2024-01-03" "00:00:00" ∧
    (extract_required_data samplePageC1 (some wdSubmitOwnerSelectRelevance)
        (some (ParametersData.mk none)) 0 none none "2024-01-03" "00:00:00").map
      (fun rec => rec.owner_value) = some "A" :=
  ⟨rfl, missing_workflowParameters_key_falls_back samplePageC1
    wdSubmitOwnerSelectRelevance (ParametersData.mk none) 0 none none
    "2024-01-03" "00:00:00" rfl, rfl⟩

end ConfluencePipeline
